import Mathlib

/-!
# Verification of the Inspector Gadget OS security kernel

Shallow embedding of the O-LLaMA security core (sandboxed filesystem,
gadget runner authorization, RBAC seeding, JWT identity tokens, and the
JSON-RPC 2.0 message layer) together with proofs and refutations of the
specification's claims about it.

Strings are handled through their character lists (`String.data`) and all
definitions are structural, so every function evaluates inside the kernel.
-/

namespace IGOS

/-! ## Go string and path primitives

Models of the parts of Go's `strings` and `path/filepath` packages used by
`internal/safefs/safefs.go`. Paths here are Unix-style, matching the
deployment target of the repository.
-/

/-- The characters of a string (direct field access, kernel-reducible). -/
def charsOf (s : String) : List Char := s.data

/-- Re-pack characters into a string. -/
def strOf (cs : List Char) : String := String.mk cs

/-- `strings.HasPrefix` on character lists: first argument is the would-be
initial segment. -/
def startsWithL : List Char → List Char → Bool
  | [], _ => true
  | _ :: _, [] => false
  | p :: ps, c :: cs => (p == c) && startsWithL ps cs

/-- `strings.Contains` on character lists: does `pat` occur as a contiguous
run inside the second argument? -/
def containsL (pat : List Char) : List Char → Bool
  | [] => pat.isEmpty
  | c :: rest => startsWithL pat (c :: rest) || containsL pat rest

/-- `strings.Contains s sub`. -/
def goContains (s sub : String) : Bool := containsL (charsOf sub) (charsOf s)

/-- Split a character list at every `/` (keeping empty components, as
`strings.Split` would). -/
def splitSlash : List Char → List (List Char)
  | [] => [[]]
  | c :: rest =>
    let r := splitSlash rest
    if c == '/' then [] :: r
    else
      match r with
      | [] => [[c]]
      | w :: ws => (c :: w) :: ws

/-- Join path components with `/` separators. -/
def joinSlash : List (List Char) → List Char
  | [] => []
  | [w] => w
  | w :: ws => w ++ '/' :: joinSlash ws

/-- `path/filepath.Clean` (Unix), by its component description: drop empty
and `.` components, let `..` cancel a preceding component (or vanish at the
root, or survive at the front of a relative path), and return `.` for an
empty relative result. -/
def goCleanL (cs : List Char) : List Char :=
  if cs == [] then ['.']
  else
    let rooted := startsWithL ['/'] cs
    let comps := (splitSlash cs).filter fun w => !(w == []) && !(w == ['.'])
    let outs := comps.foldl (fun acc w =>
      if w == ['.', '.'] then
        match acc with
        | [] => if rooted then [] else [['.', '.']]
        | a :: rest => if a == ['.', '.'] then w :: acc else rest
      else w :: acc) ([] : List (List Char))
    let body := joinSlash outs.reverse
    if rooted then '/' :: body
    else if body == [] then ['.'] else body

/-- `filepath.Clean` on strings. -/
def goClean (p : String) : String := strOf (goCleanL (charsOf p))

/-- `filepath.Abs` relative to an (absolute) working directory `cwd`:
an absolute path is cleaned, a relative one is joined onto `cwd` and the
result cleaned (`filepath.Join`). -/
def goAbsL (cwd p : List Char) : List Char :=
  if startsWithL ['/'] p then goCleanL p else goCleanL (cwd ++ '/' :: p)

/-- Relative-path computation on component lists: the shared leading
components are cancelled, each remaining base component contributes a `..`,
and the remaining target components follow. -/
def relComps : List (List Char) → List (List Char) → List Char
  | [], [] => ['.']
  | [], t => joinSlash t
  | bs, [] => joinSlash (List.replicate bs.length ['.', '.'])
  | x :: bs, y :: ts =>
    if x == y then relComps bs ts
    else joinSlash (List.replicate (bs.length + 1) ['.', '.'] ++ y :: ts)

/-- `filepath.Rel` restricted to the use in `ValidatePath`: both arguments
are cleaned absolute paths (outputs of `filepath.Abs`), for which `Rel`
never fails. -/
def goRelL (base targ : List Char) : List Char :=
  relComps ((splitSlash base).filter fun w => !(w == []))
           ((splitSlash targ).filter fun w => !(w == []))

/-- Helper for `filepath.Ext`: scan the reversed path until the first `.`
(found: that dot starts the extension) or a `/` or the start (no
extension). -/
def goExtAux : List Char → List Char → List Char
  | [], _ => []
  | c :: rest, acc =>
    if c == '/' then []
    else if c == '.' then '.' :: acc
    else goExtAux rest (c :: acc)

/-- `filepath.Ext`: the suffix starting at the final dot in the final path
element, empty when there is none. -/
def goExtL (p : List Char) : List Char := goExtAux p.reverse []

/-- ASCII lower-casing of one character (the fragment of `strings.ToLower`
and of Unicode simple folding exercised by this repository's ASCII
configuration strings and gadget names). -/
def lowerChar (c : Char) : Char :=
  if 'A' ≤ c ∧ c ≤ 'Z' then Char.ofNat (c.toNat + 32) else c

/-- `strings.ToLower` on character lists (ASCII model). -/
def lowerL (cs : List Char) : List Char := cs.map lowerChar

/-- `strings.ToLower` on strings (ASCII model). -/
def goToLower (s : String) : String := strOf (lowerL (charsOf s))

/-- `filepath.Dir`: everything up to the final path element, cleaned. -/
def goDirL (p : List Char) : List Char :=
  goCleanL ((p.reverse.dropWhile fun c => !(c == '/')).reverse)

/-! ## Sandboxed filesystem (`internal/safefs/safefs.go`)

The `SafeFS` record mirrors the Go struct; `allowedExts` holds the
lower-cased extension allow-list as built by `NewSafeFS`. Filesystem state
is a map from paths to byte contents plus the set of created directories,
so that "the file system is untouched" is literal state equality.
-/

structure SafeFS where
  basePaths : List String
  maxFileSize : Int
  allowedExts : List String
  deniedPaths : List String
deriving DecidableEq

/-- `NewSafeFS`: the extension allow-list is lower-cased on construction. -/
def newSafeFS (basePaths : List String) (maxFileSize : Int)
    (allowedExts deniedPaths : List String) : SafeFS :=
  { basePaths, maxFileSize, allowedExts := allowedExts.map goToLower, deniedPaths }

/-- The error values of `safefs.go` that `ValidatePath`/`WriteFile`/`ReadFile`
can produce. -/
inductive FsErr
  | pathOutsideBase
  | pathTraversal
  | fileTooBig
  | extNotAllowed
  | pathDenied
deriving DecidableEq

/-- `(*SafeFS).ValidatePath`, parametrised by the process working directory
`cwd` (consumed by `filepath.Abs`): clean the path, reject a cleaned path
containing `..` as traversal, require containment under some base path via
`filepath.Rel`, reject denied prefixes, and check the extension allow-list.
`none` means the path is accepted. -/
def validatePath (fs : SafeFS) (cwd : String) (path : String) : Option FsErr :=
  let cleanPath := goCleanL (charsOf path)
  if containsL (charsOf "..") cleanPath then some .pathTraversal
  else
    let absPath := goAbsL (charsOf cwd) cleanPath
    let allowed := fs.basePaths.any fun basePath =>
      !(startsWithL (charsOf "..") (goRelL (goAbsL (charsOf cwd) (charsOf basePath)) absPath))
    if !allowed then some .pathOutsideBase
    else if fs.deniedPaths.any (fun d => startsWithL (goAbsL (charsOf cwd) (charsOf d)) absPath) then
      some .pathDenied
    else if !fs.allowedExts.isEmpty then
      if fs.allowedExts.contains (strOf (lowerL (goExtL absPath))) then none
      else some .extNotAllowed
    else none

/-- Filesystem state: file contents by path, and the set of directories
created so far. -/
structure FileSys where
  files : List (String × List Nat)
  dirs : List String
deriving DecidableEq

/-- `os.MkdirAll` as observed through this model: record the directory. -/
def mkdirAll (st : FileSys) (dir : String) : FileSys :=
  if st.dirs.contains dir then st else { st with dirs := dir :: st.dirs }

/-- `os.WriteFile` as observed through this model: replace the contents. -/
def setFile (files : List (String × List Nat)) (path : String) (data : List Nat) :
    List (String × List Nat) :=
  (path, data) :: files.filter fun kv => !(kv.1 == path)

/-- `(*SafeFS).WriteFile`: validate the path, apply the size cap when
positive, then create the parent directory and write. Returns the error
(if any) and the resulting filesystem state. -/
def writeFile (fs : SafeFS) (cwd : String) (st : FileSys) (path : String)
    (data : List Nat) : Option FsErr × FileSys :=
  match validatePath fs cwd path with
  | some e => (some e, st)
  | none =>
    if fs.maxFileSize > 0 ∧ (data.length : Int) > fs.maxFileSize then (some .fileTooBig, st)
    else
      let st1 := mkdirAll st (strOf (goDirL (charsOf path)))
      (none, { st1 with files := setFile st1.files path data })

/-- Failure modes of `ReadFile`: a validation denial, or a failed `os.Stat`
(missing file). -/
inductive ReadErr
  | denied (e : FsErr)
  | statFailed
deriving DecidableEq

/-- `(*SafeFS).ReadFile`: validate, stat, apply the size cap when positive,
then read. -/
def readFile (fs : SafeFS) (cwd : String) (st : FileSys) (path : String) :
    Except ReadErr (List Nat) :=
  match validatePath fs cwd path with
  | some e => .error (.denied e)
  | none =>
    match st.files.lookup path with
    | none => .error .statFailed
    | some data =>
      if fs.maxFileSize > 0 ∧ (data.length : Int) > fs.maxFileSize then
        .error (.denied .fileTooBig)
      else .ok data

/-! ## Identity claims (`internal/auth`, `jwt.Claims`)

The JWT claims carried by a token: the custom fields plus the registered
claims that `GenerateToken` populates. Times are seconds (JWT numeric
dates), modelled as integers.
-/

structure Claims where
  userID : String
  username : String
  roles : List String
  expiresAt : Int
  issuedAt : Int
  notBefore : Int
  issuer : String
  subject : String
deriving DecidableEq

/-! ## Gadget runner and RBAC middleware
(`internal/mcp/protocol.go` integration part, `internal/rbac/middleware.go`)

The Casbin enforcer is an external dependency; it appears as an oracle
`enf : subject → object → action → Option Bool`, where `none` models an
enforcement error (the middleware turns those into HTTP 500, while the
in-handler `CheckPermission` swallows them).
-/

/-- The character class of `isValidGadgetName`'s loop:
alphanumerics, hyphen, underscore. -/
def validChar (c : Char) : Bool :=
  ('a' ≤ c && c ≤ 'z') || ('A' ≤ c && c ≤ 'Z') || ('0' ≤ c && c ≤ '9') ||
    c == '-' || c == '_'

/-- `isValidGadgetName`: every rune in the class above, and a length between
1 and 50. (Go measures bytes while the loop walks runes; any name with a
non-ASCII rune already fails the loop, and on all-ASCII names bytes and
runes coincide, so the character count is the byte count.) -/
def isValidGadgetName (name : String) : Bool :=
  (charsOf name).all validChar && name.length > 0 && name.length ≤ 50

/-- `strings.EqualFold` restricted to ASCII case folding. This is not the
full function: Go folds with Unicode simple folding, under which U+212A
(KELVIN SIGN) also matches `k`/`K` and U+017F (LATIN SMALL LETTER LONG S)
also matches `s`/`S` — `equalFoldGo` below models the full rune loop. The
restriction is exact on all-ASCII argument pairs, and the theorems stated
over it confine themselves to that domain (their hypotheses only admit
ASCII case variants of the roster names). -/
def equalFold (a b : String) : Bool := lowerL (charsOf a) == lowerL (charsOf b)

/-- The hard-coded system gadget roster of `isSystemGadget`. -/
def systemGadgets : List String := ["sysinfo", "network-scanner", "process", "hardware"]

/-- `isSystemGadget` over the ASCII fold restriction (see `equalFold`);
`isSystemGadgetGo` below is the full-fold version. -/
def isSystemGadget (name : String) : Bool := systemGadgets.any (equalFold name)

/-- One rune comparison of `strings.EqualFold`. Go first tries equality;
otherwise it orders the pair and, when the larger rune is ASCII, accepts
exactly the ASCII capital/lowercase pairing (`tr == sr + 'a' - 'A'`); when
the larger rune is beyond ASCII it walks `unicode.SimpleFold` from the
smaller rune until it cycles back or passes the larger one. A simple-fold
orbit containing an ASCII rune leaves ASCII only in the two orbits
`K`/`k`/U+212A (KELVIN SIGN) and `S`/`s`/U+017F (LATIN SMALL LETTER
LONG S), so when the smaller rune is ASCII that walk is exactly the two
tests below. Every `EqualFold` call in this program compares against an
all-ASCII roster name, which keeps the smaller rune of every pair ASCII;
on that domain this is `strings.EqualFold` exactly. -/
def foldStep (sr tr : Char) : Bool :=
  if sr == tr then true
  else
    let lo := if tr < sr then tr else sr
    let hi := if tr < sr then sr else tr
    if hi.toNat < 128 then
      ('A' ≤ lo && lo ≤ 'Z') && hi.toNat == lo.toNat + 32
    else
      ((lo == 'K' || lo == 'k') && hi.toNat == 0x212A) ||
      ((lo == 'S' || lo == 's') && hi.toNat == 0x17F)

/-- The rune loop of `strings.EqualFold`: pairs of runes must fold-match
until both strings are exhausted together. -/
def foldEqL : List Char → List Char → Bool
  | [], [] => true
  | [], _ :: _ => false
  | _ :: _, [] => false
  | a :: s2, b :: t2 => foldStep a b && foldEqL s2 t2

/-- `strings.EqualFold`: Unicode simple folding (exact whenever either
argument is all-ASCII; see `foldStep`). -/
def equalFoldGo (a b : String) : Bool := foldEqL (charsOf a) (charsOf b)

/-- `isSystemGadget` over the full fold: simple-fold-insensitive membership
in the roster. -/
def isSystemGadgetGo (name : String) : Bool := systemGadgets.any (equalFoldGo name)

/-- Simple-fold canonicalisation towards lowercase ASCII: ASCII capitals
are lowered, and the two non-ASCII runes whose simple-fold orbits cross
ASCII — U+212A (KELVIN SIGN) and U+017F (LATIN SMALL LETTER LONG S) — go
to `k` and `s`; every other rune is fixed. Comparing the image of a name
under this map with an ASCII lowercase word is exactly `strings.EqualFold`
against that word. -/
def foldChar (c : Char) : Char :=
  if c.toNat == 0x212A then 'k'
  else if c.toNat == 0x17F then 's'
  else lowerChar c

/-- The fold-lowering of a whole string. -/
def foldLower (s : String) : String := strOf ((charsOf s).map foldChar)

/-- The probe name `proce` + U+017F + `s`: the word `process` with a LATIN
SMALL LETTER LONG S in place of its internal `s`. -/
def procLongS : String := strOf ['p', 'r', 'o', 'c', 'e', Char.ofNat 0x17F, 's']

/-- A Casbin enforcement oracle: `some b` is a clean decision, `none` an
enforcement error. -/
def Enf : Type := String → String → String → Option Bool

/-- `(*RBACMiddleware).CheckPermission`: direct user permission first
(errors swallowed), then each role under the `role:` prefix. -/
def checkPermission (enf : Enf) (cl : Claims) (object action : String) : Bool :=
  if enf cl.username object action = some true then true
  else cl.roles.any fun role => decide (enf ("role:" ++ role) object action = some true)

/-- The role loop of `RequirePermission` (middleware lines 51–63): the first
enforcement error aborts with HTTP 500 (`none`); otherwise `some true` as
soon as a role is allowed, else `some false`. -/
def roleCheckLoop (enf : Enf) (roles : List String) (object action : String) : Option Bool :=
  match roles with
  | [] => some false
  | r :: rest =>
    match enf ("role:" ++ r) object action with
    | none => none
    | some true => some true
    | some false => roleCheckLoop enf rest object action

/-- `(*RBACMiddleware).RequirePermission` as a function from the request's
authentication state to either an abort status (`some status`) or
pass-through (`none`). -/
def requirePermission (enf : Enf) (claims : Option Claims) (object action : String) :
    Option Nat :=
  match claims with
  | none => some 401
  | some cl =>
    match enf cl.username object action with
    | none => some 500
    | some true => none
    | some false =>
      match roleCheckLoop enf cl.roles object action with
      | none => some 500
      | some true => none
      | some false => some 403

/-- The observable outcome of the execute route: HTTP status and whether a
gadget subprocess was spawned. -/
structure GadgetOutcome where
  status : Nat
  spawned : Bool
deriving DecidableEq

/-- `(*GadgetIntegration).ExecuteGadget` (the route handler): name
validation, request-body binding (`bodyOk`), authentication, the system
gadget permission check, then execution; `runOk` abstracts the subprocess
exit status. -/
def executeGadget (enf : Enf) (name : String) (bodyOk : Bool)
    (claims : Option Claims) (runOk : Bool) : GadgetOutcome :=
  if !isValidGadgetName name then ⟨400, false⟩
  else if !bodyOk then ⟨400, false⟩
  else
    match claims with
    | none => ⟨401, false⟩
    | some cl =>
      if isSystemGadget name && !checkPermission enf cl "system" "manage" then ⟨403, false⟩
      else if runOk then ⟨200, true⟩ else ⟨500, true⟩

/-- The full `POST /gadgets/:name/execute` pipeline: the
`RequirePermission("gadgets", "execute")` middleware, then the handler. -/
def executeGadgetRoute (enf : Enf) (name : String) (bodyOk : Bool)
    (claims : Option Claims) (runOk : Bool) : GadgetOutcome :=
  match requirePermission enf claims "gadgets" "execute" with
  | some status => ⟨status, false⟩
  | none => executeGadget enf name bodyOk claims runOk

/-! ## Policy store seeding (`internal/rbac`, Casbin-backed)

The stored rule set is the enforcer's ordered policy list (`GetPolicy`
returns insertion order; `AddPolicy` refuses duplicates).
-/

/-- A `(subject, object, action)` permission rule. -/
structure Perm where
  sub : String
  obj : String
  act : String
deriving DecidableEq

/-- `DefaultPermissions` from `internal/rbac`. -/
def defaultPermissions : List Perm := [
  ⟨"role:admin", "filesystem", "read"⟩,
  ⟨"role:admin", "filesystem", "write"⟩,
  ⟨"role:admin", "filesystem", "execute"⟩,
  ⟨"role:admin", "system", "config"⟩,
  ⟨"role:admin", "system", "manage"⟩,
  ⟨"role:admin", "ai", "access"⟩,
  ⟨"role:admin", "ai", "models"⟩,
  ⟨"role:admin", "users", "manage"⟩,
  ⟨"role:admin", "roles", "manage"⟩,
  ⟨"role:admin", "gadgets", "execute"⟩,
  ⟨"role:admin", "gadgets", "manage"⟩,
  ⟨"role:user", "filesystem", "read"⟩,
  ⟨"role:user", "ai", "access"⟩,
  ⟨"role:user", "gadgets", "execute"⟩,
  ⟨"role:readonly", "filesystem", "read"⟩,
  ⟨"role:ai_user", "filesystem", "read"⟩,
  ⟨"role:ai_user", "filesystem", "write"⟩,
  ⟨"role:ai_user", "ai", "access"⟩,
  ⟨"role:ai_user", "gadgets", "execute"⟩]

/-- Casbin `AddPolicy`: append unless already present (returns the updated
list; the Go boolean result is not needed here). -/
def addPolicy (ps : List Perm) (p : Perm) : List Perm :=
  if p ∈ ps then ps else ps ++ [p]

/-- `(*CasbinManager).initializeDefaults`: when the stored policy list is
non-empty do nothing, otherwise add every default permission (in order) and
save. -/
def initDefaults (ps : List Perm) : List Perm :=
  if ps.length > 0 then ps
  else defaultPermissions.foldl addPolicy ps

/-! ## JWT mint and verify (`internal/auth`, golang-jwt/v5)

The golang-jwt library is external; its HMAC signature is modelled
symbolically as the triple (key, algorithm, signed claims), so two
signatures agree exactly when key, algorithm, and payload all agree (a
perfect MAC). `jwt.ParseWithClaims` is modelled at the structural level: the
keyfunc's HMAC-family check, the signature comparison, and the default v5
registered-claim validation — `exp` (strict) and `nbf` are checked; no
issuer expectation is configured in `ValidateToken`, so the `iss` claim is
not examined.
-/

/-- The JWT manager state (allowed-roles set omitted: unused by
`GenerateToken`/`ValidateToken`). `tokenExpiry` is in seconds. -/
structure JWTManager where
  secretKey : String
  tokenExpiry : Int
  issuer : String
deriving DecidableEq

/-- A symbolic HMAC signature: the key, the `alg` header, and the claims it
signs. -/
structure MacSig where
  key : String
  alg : String
  payload : Claims
deriving DecidableEq

/-- A serialized token: its `alg` header, claims, and signature. -/
structure SignedToken where
  alg : String
  claims : Claims
  sig : MacSig
deriving DecidableEq

/-- `(*JWTManager).GenerateToken` at time `now`: issued-at and not-before
are `now`, expiry is `now + tokenExpiry`, issuer and subject are set, and
the token is signed with HS256 under the manager's secret. -/
def generateToken (j : JWTManager) (now : Int) (userID username : String)
    (roles : List String) : SignedToken :=
  let cl : Claims :=
    { userID, username, roles,
      expiresAt := now + j.tokenExpiry,
      issuedAt := now,
      notBefore := now,
      issuer := j.issuer,
      subject := userID }
  { alg := "HS256", claims := cl, sig := ⟨j.secretKey, "HS256", cl⟩ }

/-- Errors surfaced by `ValidateToken` (`ErrInvalidToken` wraps every
failure other than expiry). -/
inductive AuthErr
  | invalidToken
  | tokenExpired
deriving DecidableEq

/-- The keyfunc's check that the token uses an HMAC-family method. -/
def isHMACAlg (alg : String) : Bool := alg == "HS256" || alg == "HS384" || alg == "HS512"

/-- `(*JWTManager).ValidateToken` at time `now`: reject non-HMAC
algorithms, verify the signature under the manager's secret, then apply the
default registered-claim validation (`now < exp`, `nbf ≤ now`). The issuer
claim is not consulted. -/
def validateToken (j : JWTManager) (now : Int) (t : SignedToken) : Except AuthErr Claims :=
  if !isHMACAlg t.alg then .error .invalidToken
  else if !(t.sig == ⟨j.secretKey, t.alg, t.claims⟩) then .error .invalidToken
  else if t.claims.expiresAt ≤ now then .error .tokenExpired
  else if now < t.claims.notBefore then .error .invalidToken
  else .ok t.claims

/-! ## JSON-RPC message core (`internal/mcp/protocol.go`)

Dynamic (`interface{}`) field values are modelled by `GoValue`. `vUint`
holds the `uint64` ids produced by `MessageIDGenerator`; `vNum` holds the
`float64` numbers produced by JSON decoding, restricted in this model to
integral values (exact in `float64` at the magnitudes this program uses —
every number the message layer itself produces is a small integer).
-/

inductive GoValue where
  | vNull
  | vBool (b : Bool)
  | vUint (n : Nat)
  | vNum (n : Int)
  | vStr (s : String)
  | vArr (xs : List GoValue)
  | vObj (ms : List (String × GoValue))

/-- Is the value distinct from JSON null? -/
def notNull : GoValue → Bool
  | .vNull => false
  | _ => true

/-- `mcp.RPCError` (`data` is `interface{}`, hence optional). -/
structure RPCError where
  code : Int
  message : String
  data : Option GoValue

/-- `mcp.Message`: a JSON-RPC 2.0 frame. `id`, `params`, `result` are
`interface{}` in Go (so `none` is the nil interface) and `error` is a
possibly-nil pointer. -/
structure Message where
  jsonrpc : String
  id : Option GoValue
  method : String
  params : Option GoValue
  result : Option GoValue
  error : Option RPCError

/-- `(*Message).IsRequest`. -/
def Message.IsRequest (m : Message) : Bool := !(m.method == "") && m.id.isSome

/-- `(*Message).IsResponse`. -/
def Message.IsResponse (m : Message) : Bool :=
  m.id.isSome && (m.method == "") && (m.result.isSome || m.error.isSome)

/-- `(*Message).IsNotification`. -/
def Message.IsNotification (m : Message) : Bool := !(m.method == "") && !m.id.isSome

/-- The distinct `&MCPError{InvalidRequest, ...}` values `ValidateMessage`
can return. -/
inductive ValidateErr
  | invalidVersion
  | requestMissingMethod
  | requestMissingId
  | responseMissingId
  | responseMissingPayload
deriving DecidableEq

/-- `mcp.ValidateMessage`, with its exact control flow: version check, then
the request-shape checks guarded by `IsRequest`, then the response-shape
checks guarded by `IsResponse`. `none` means the frame is accepted. -/
def validateMessage (m : Message) : Option ValidateErr :=
  if !(m.jsonrpc == "2.0") then some .invalidVersion
  else
    match (if m.IsRequest then
             (if m.method == "" then some ValidateErr.requestMissingMethod
              else if !m.id.isSome then some ValidateErr.requestMissingId
              else none)
           else none) with
    | some e => some e
    | none =>
      if m.IsResponse then
        if !m.id.isSome then some .responseMissingId
        else if !m.result.isSome && !m.error.isSome then some .responseMissingPayload
        else none
      else none

/-! ## JSON encoding and decoding (`encoding/json`, as used by
`MarshalMessage` / `UnmarshalMessage`)

The encoder is modelled exactly on the subset of JSON the message layer
exchanges: struct fields in declaration order with `omitempty` (which for
`interface{}` and pointer fields omits only nil), compact output (no
whitespace), Go's default string escaping (including the HTML escapes
`<`, `>`, `&` and the line separators U+2028/U+2029), and integral numbers
in plain decimal. The decoder is the matching subset of `json.Unmarshal`:
decoded numbers land in `vNum` (Go: `float64`), objects in `vObj`, and a
whole-input single value is required.
-/

/-- Is the character a decimal digit? -/
def isDigitCh (c : Char) : Bool := '0' ≤ c && c ≤ '9'

/-- The digit character for `k < 10`. -/
def digCh (k : Nat) : Char := Char.ofNat (48 + k)

/-- Lower-case hex digit character for `k < 16`. -/
def hexDig (k : Nat) : Char :=
  if k < 10 then Char.ofNat (48 + k) else Char.ofNat (87 + k)

/-- Hex digit value of a character (`none` when it is not a hex digit). -/
def hexNib (c : Char) : Option Nat :=
  if '0' ≤ c && c ≤ '9' then some (c.toNat - 48)
  else if 'a' ≤ c && c ≤ 'f' then some (c.toNat - 87)
  else if 'A' ≤ c && c ≤ 'F' then some (c.toNat - 55)
  else none

/-- Decimal digit characters of `n`, most significant first. -/
def natDigs (n : Nat) : List Char :=
  if _h : n < 10 then [digCh n]
  else natDigs (n / 10) ++ [digCh (n % 10)]
termination_by n
decreasing_by exact Nat.div_lt_self (by omega) (by omega)

/-- An integer in decimal: optional minus sign, then digits. -/
def intChars (i : Int) : List Char :=
  if i < 0 then '-' :: natDigs i.natAbs else natDigs i.natAbs

/-- Go's JSON escaping of one character (default encoder configuration,
HTML escaping on). -/
def escChar (c : Char) : List Char :=
  if c == '"' then ['\\', '"']
  else if c == '\\' then ['\\', '\\']
  else if c == '\n' then ['\\', 'n']
  else if c == '\r' then ['\\', 'r']
  else if c == '\t' then ['\\', 't']
  else if c.toNat < 32 then ['\\', 'u', '0', '0', hexDig (c.toNat / 16), hexDig (c.toNat % 16)]
  else if c == '<' then ['\\', 'u', '0', '0', '3', 'c']
  else if c == '>' then ['\\', 'u', '0', '0', '3', 'e']
  else if c == '&' then ['\\', 'u', '0', '0', '2', '6']
  else if c == Char.ofNat 0x2028 then ['\\', 'u', '2', '0', '2', '8']
  else if c == Char.ofNat 0x2029 then ['\\', 'u', '2', '0', '2', '9']
  else [c]

/-- A JSON string literal: quote, escaped characters, quote. -/
def printStr (s : String) : List Char :=
  '"' :: ((charsOf s).flatMap escChar ++ ['"'])

mutual

/-- Render one value (the encoder side). -/
def printVal : GoValue → List Char
  | .vNull => ['n', 'u', 'l', 'l']
  | .vBool true => ['t', 'r', 'u', 'e']
  | .vBool false => ['f', 'a', 'l', 's', 'e']
  | .vUint n => natDigs n
  | .vNum i => intChars i
  | .vStr s => printStr s
  | .vArr xs => '[' :: (printElems xs ++ [']'])
  | .vObj ms => '{' :: (printMems ms ++ ['}'])

/-- Render a comma-separated element list (no brackets). -/
def printElems : List GoValue → List Char
  | [] => []
  | x :: xs => printVal x ++ printElemSep xs

/-- The continuation of an element list: each further element preceded by a
comma. -/
def printElemSep : List GoValue → List Char
  | [] => []
  | x :: xs => ',' :: (printVal x ++ printElemSep xs)

/-- Render a comma-separated member list (no braces). -/
def printMems : List (String × GoValue) → List Char
  | [] => []
  | (k, v) :: ms => printStr k ++ ':' :: (printVal v ++ printMemSep ms)

/-- The continuation of a member list: each further member preceded by a
comma. -/
def printMemSep : List (String × GoValue) → List Char
  | [] => []
  | (k, v) :: ms => ',' :: (printStr k ++ ':' :: (printVal v ++ printMemSep ms))

end

/-- The named escapes `json` decoding accepts after a backslash. -/
def unescChar (e : Char) : Option Char :=
  if e == '"' then some '"'
  else if e == '\\' then some '\\'
  else if e == '/' then some '/'
  else if e == 'n' then some '\n'
  else if e == 'r' then some '\r'
  else if e == 't' then some '\t'
  else if e == 'b' then some (Char.ofNat 8)
  else if e == 'f' then some (Char.ofNat 12)
  else none

mutual

/-- Decode the body of a string literal after the opening quote,
accumulating decoded characters (in reverse) until the closing quote. -/
def parseStrBody (acc : List Char) : List Char → Option (String × List Char)
  | [] => none
  | c :: rest =>
    if c == '"' then some (strOf acc.reverse, rest)
    else if c == '\\' then parseEsc acc rest
    else parseStrBody (c :: acc) rest

/-- Decode what follows a backslash. -/
def parseEsc (acc : List Char) : List Char → Option (String × List Char)
  | [] => none
  | e :: rest2 =>
    if e == 'u' then parseU acc rest2
    else
      match unescChar e with
      | some ch => parseStrBody (ch :: acc) rest2
      | none => none

/-- Decode the four hex digits of a `\uXXXX` escape. -/
def parseU (acc : List Char) : List Char → Option (String × List Char)
  | a :: b :: c2 :: d :: rest3 =>
    match hexNib a, hexNib b, hexNib c2, hexNib d with
    | some x, some y, some z, some w =>
      parseStrBody (Char.ofNat (((x * 16 + y) * 16 + z) * 16 + w) :: acc) rest3
    | _, _, _, _ => none
  | _ => none

end

/-- Greedily take a run of decimal digits. -/
def takeDigs : List Char → List Char × List Char
  | [] => ([], [])
  | c :: rest =>
    if isDigitCh c then
      let (ds, r) := takeDigs rest
      (c :: ds, r)
    else ([], c :: rest)

/-- Numeric value of a digit run. -/
def digsToNat (ds : List Char) : Nat :=
  ds.foldl (fun acc c => acc * 10 + (c.toNat - 48)) 0

/-- Decode an integral JSON number (this model's number subset). -/
def parseNum : List Char → Option (Int × List Char)
  | [] => none
  | c :: r =>
    if c == '-' then
      let p := takeDigs r
      if p.1 == [] then none else some (-(digsToNat p.1 : Int), p.2)
    else
      let p := takeDigs (c :: r)
      if p.1 == [] then none else some ((digsToNat p.1 : Int), p.2)

mutual

/-- Decode one value (the decoder side), fuelled for totality. -/
def parseVal (fuel : Nat) (cs : List Char) : Option (GoValue × List Char) :=
  match fuel with
  | 0 => none
  | fuel + 1 =>
    match cs with
    | [] => none
    | c :: r =>
      if c == 'n' then
        match r with
        | 'u' :: 'l' :: 'l' :: r2 => some (.vNull, r2)
        | _ => none
      else if c == 't' then
        match r with
        | 'r' :: 'u' :: 'e' :: r2 => some (.vBool true, r2)
        | _ => none
      else if c == 'f' then
        match r with
        | 'a' :: 'l' :: 's' :: 'e' :: r2 => some (.vBool false, r2)
        | _ => none
      else if c == '"' then
        match parseStrBody [] r with
        | some (s, r2) => some (.vStr s, r2)
        | none => none
      else if c == '[' then
        match r with
        | [] => none
        | c2 :: r2 =>
          if c2 == ']' then some (.vArr [], r2)
          else
            match parseElems fuel (c2 :: r2) with
            | some (xs, r3) => some (.vArr xs, r3)
            | none => none
      else if c == '{' then
        match r with
        | [] => none
        | c2 :: r2 =>
          if c2 == '}' then some (.vObj [], r2)
          else
            match parseMems fuel (c2 :: r2) with
            | some (ms, r3) => some (.vObj ms, r3)
            | none => none
      else if c == '-' || isDigitCh c then
        match parseNum (c :: r) with
        | some (n, r2) => some (.vNum n, r2)
        | none => none
      else none

/-- Decode one-or-more comma-separated elements up to the closing `]`. -/
def parseElems (fuel : Nat) (cs : List Char) : Option (List GoValue × List Char) :=
  match fuel with
  | 0 => none
  | fuel + 1 =>
    match parseVal fuel cs with
    | none => none
    | some (v, r) =>
      match r with
      | ',' :: r2 =>
        match parseElems fuel r2 with
        | some (xs, r3) => some (v :: xs, r3)
        | none => none
      | ']' :: r2 => some ([v], r2)
      | _ => none

/-- Decode one-or-more comma-separated members up to the closing `}`. -/
def parseMems (fuel : Nat) (cs : List Char) : Option (List (String × GoValue) × List Char) :=
  match fuel with
  | 0 => none
  | fuel + 1 =>
    match cs with
    | '"' :: r =>
      match parseStrBody [] r with
      | none => none
      | some (k, r1) =>
        match r1 with
        | ':' :: r2 =>
          match parseVal fuel r2 with
          | none => none
          | some (v, r3) =>
            match r3 with
            | ',' :: r4 =>
              match parseMems fuel r4 with
              | some (ms, r5) => some ((k, v) :: ms, r5)
              | none => none
            | '}' :: r4 => some ([(k, v)], r4)
            | _ => none
        | _ => none
    | _ => none

end

/-! ### Struct-level marshal and unmarshal of `Message` -/

/-- The JSON members of an `RPCError` struct, in declaration order, with
`omitempty` on the `data` interface field (omit only nil). -/
def errFields (e : RPCError) : List (String × GoValue) :=
  [("code", .vNum e.code), ("message", .vStr e.message)] ++
    (match e.data with | none => [] | some v => [("data", v)])

/-- The JSON members of a `Message` struct, in declaration order, with
`omitempty` on every field but `jsonrpc` (omitting nil interfaces, the
empty method string, and the nil error pointer). -/
def msgFields (m : Message) : List (String × GoValue) :=
  ("jsonrpc", .vStr m.jsonrpc) ::
    ((match m.id with | none => [] | some v => [("id", v)]) ++
     (if m.method == "" then [] else [("method", GoValue.vStr m.method)]) ++
     (match m.params with | none => [] | some v => [("params", v)]) ++
     (match m.result with | none => [] | some v => [("result", v)]) ++
     (match m.error with | none => [] | some e => [("error", GoValue.vObj (errFields e))]))

/-- `mcp.MarshalMessage` (via `json.Marshal`). -/
def marshalMessage (m : Message) : List Char := printVal (.vObj (msgFields m))

/-- Apply one decoded JSON member to an `RPCError` being built (Go decodes
`code` into an `int`, `message` into a `string`, `data` into an
`interface{}`; unknown keys are ignored; `none` is a decode error). -/
def applyErrField (e : RPCError) : String × GoValue → Option RPCError
  | (k, v) =>
    if k == "code" then
      match v with
      | .vNum n => some { e with code := n }
      | _ => none
    else if k == "message" then
      match v with
      | .vStr s => some { e with message := s }
      | _ => none
    else if k == "data" then
      if notNull v then some { e with data := some v } else some { e with data := none }
    else some e

/-- Apply one decoded JSON member to a `Message` being built, following
`json.Unmarshal` field typing: strings for `jsonrpc`/`method`, generic
values for the interface fields (JSON null leaves a nil interface), a
nested struct decode for `error` (JSON null leaves a nil pointer). Unknown
keys are ignored. -/
def applyMsgField (m : Message) : String × GoValue → Option Message
  | (k, v) =>
    if k == "jsonrpc" then
      match v with
      | .vStr s => some { m with jsonrpc := s }
      | _ => none
    else if k == "id" then
      if notNull v then some { m with id := some v } else some { m with id := none }
    else if k == "method" then
      match v with
      | .vStr s => some { m with method := s }
      | _ => none
    else if k == "params" then
      if notNull v then some { m with params := some v } else some { m with params := none }
    else if k == "result" then
      if notNull v then some { m with result := some v } else some { m with result := none }
    else if k == "error" then
      match v with
      | .vNull => some { m with error := none }
      | .vObj fs =>
        match fs.foldlM applyErrField ⟨0, "", none⟩ with
        | some e => some { m with error := some e }
        | none => none
      | .vBool _ => none
      | .vUint _ => none
      | .vNum _ => none
      | .vStr _ => none
      | .vArr _ => none
    else some m

/-- The zero `Message` that decoding starts from. -/
def emptyMessage : Message := ⟨"", none, "", none, none, none⟩

/-- `mcp.UnmarshalMessage` (via `json.Unmarshal`): decode the whole input
as one JSON object and fold its members into a `Message`. -/
def unmarshalMessage (cs : List Char) : Option Message :=
  match parseVal (cs.length + 1) cs with
  | some (.vObj fs, []) => fs.foldlM applyMsgField emptyMessage
  | _ => none

/-! ### Decoded normal form

A dynamic value is in decoded form when it could have been produced by
`json.Unmarshal` into an `interface{}`: numbers are `float64` (`vNum`,
never the generator's `vUint`), recursively in arrays and objects.
-/

mutual

/-- Is the value in JSON-decoded normal form (no `vUint` anywhere)? -/
def decodedForm : GoValue → Bool
  | .vNull => true
  | .vBool _ => true
  | .vUint _ => false
  | .vNum _ => true
  | .vStr _ => true
  | .vArr xs => decodedFormL xs
  | .vObj ms => decodedFormM ms

def decodedFormL : List GoValue → Bool
  | [] => true
  | x :: xs => decodedForm x && decodedFormL xs

def decodedFormM : List (String × GoValue) → Bool
  | [] => true
  | (_, v) :: ms => decodedForm v && decodedFormM ms

end

/-- An optional interface field is decoded-stable when absent, or holding a
decoded non-null value. -/
def decodedOpt : Option GoValue → Bool
  | none => true
  | some v => decodedForm v && notNull v

/-- Characters that cannot extend a decimal number: end of input or a
non-digit (every delimiter the encoder emits after a number qualifies). -/
def numStop : List Char → Bool
  | [] => true
  | c :: _ => !isDigitCh c

/-! ## Concrete instances used by refutations and witnesses -/

/-- A version-2.0 response frame carrying both a result and an error. -/
def bothPayloadResp : Message :=
  ⟨"2.0", some (.vNum 7), "", none, some (.vStr "ok"), some ⟨-32000, "boom", none⟩⟩

/-- A well-formed version-2.0 response frame (result only). -/
def okResp : Message := ⟨"2.0", some (.vNum 1), "", none, some (.vStr "r"), none⟩

/-- A request frame whose id is the generator's `uint64` value 1, as
`CreateRequest(gen.Next(), "ping", nil)` builds it. -/
def uintIdRequest : Message := ⟨"2.0", some (.vUint 1), "ping", none, none, none⟩

/-- A request frame already in decoded normal form. -/
def decodedRequest : Message :=
  ⟨"2.0", some (.vNum 3), "tools/call",
   some (.vObj [("name", .vStr "echo"), ("x", .vArr [.vNum 1, .vNull])]), none, none⟩

/-- A JWT manager with the default issuer. -/
def demoJWT : JWTManager := ⟨"secret-key", 3600, "inspector-gadget-os"⟩

/-- Claims naming a foreign issuer, otherwise in validity window at
time 500. -/
def foreignIssuerClaims : Claims :=
  ⟨"u1", "alice", ["user"], 1000, 0, 0, "someone-else", "u1"⟩

/-- A token over `foreignIssuerClaims`, well signed under `demoJWT`'s
secret. -/
def foreignIssuerToken : SignedToken :=
  ⟨"HS256", foreignIssuerClaims, ⟨"secret-key", "HS256", foreignIssuerClaims⟩⟩

/-- An enforcement oracle granting `(gadgets, execute)` to user `bob` and
to `role:user`, and nothing else. -/
def demoEnf : Enf := fun s o a =>
  some (((s == "bob") || (s == "role:user")) && (o == "gadgets") && (a == "execute"))

/-- A caller holding only the `user` role. -/
def demoClaims : Claims := ⟨"u2", "bob", ["user"], 0, 0, 0, "", ""⟩

/-! # Theorems -/

/-! ## Sandboxed filesystem: traversal policy and size cap (C1, C7) -/

/-- `ValidatePath` can never produce the size error. -/
theorem validatePath_ne_fileTooBig (fs : SafeFS) (cwd path : String) :
    validatePath fs cwd path ≠ some .fileTooBig := by
  simp only [validatePath]
  split_ifs <;> simp

/-- C1 (amended): for every input path whose cleaned form still contains
the substring `..`, `ValidatePath` returns `ErrPathTraversal`, regardless
of the configured base roots; the string-level check is applied to the
output of `filepath.Clean`, not to the raw input. -/
theorem validatePath_cleaned_traversal (fs : SafeFS) (cwd path : String)
    (h : containsL (charsOf "..") (goCleanL (charsOf path)) = true) :
    validatePath fs cwd path = some .pathTraversal := by
  unfold validatePath
  simp [h]

/-- Witness for `validatePath_cleaned_traversal` at `../etc/passwd`. -/
theorem validatePath_cleaned_traversal_witness :
    containsL (charsOf "..") (goCleanL (charsOf "../etc/passwd")) = true ∧
    validatePath (newSafeFS ["/tmp"] 0 [] []) "/" "../etc/passwd" = some .pathTraversal :=
  ⟨by decide,
   validatePath_cleaned_traversal (newSafeFS ["/tmp"] 0 [] []) "/" "../etc/passwd" (by decide)⟩

/-- C1 (counterexample): the input `/base/x/../y` contains the substring
`..` but is accepted by `ValidatePath` (cleaning resolves the `..` away
before the string-level check runs), refuting the claim that every input
containing `..` is rejected as traversal. -/
theorem validatePath_dotdot_accepted :
    goContains "/base/x/../y" ".." = true ∧
    validatePath (newSafeFS ["/base"] 0 [] []) "/" "/base/x/../y" = none := by
  constructor
  · decide
  · decide

/-- C7: with a positive cap, an over-cap write fails with the too-large
error and leaves the filesystem state untouched; a write of exactly the cap
passes the size check; with a zero cap neither writes nor reads are
size-limited. -/
theorem writeFile_size_cap (fs : SafeFS) (cwd : String) (st : FileSys)
    (path : String) (data : List Nat) :
    (0 < fs.maxFileSize → fs.maxFileSize < (data.length : Int) →
      validatePath fs cwd path = none →
      writeFile fs cwd st path data = (some .fileTooBig, st)) ∧
    (0 < fs.maxFileSize → (data.length : Int) = fs.maxFileSize →
      validatePath fs cwd path = none →
      (writeFile fs cwd st path data).1 = none) ∧
    (fs.maxFileSize = 0 →
      (writeFile fs cwd st path data).1 ≠ some .fileTooBig ∧
      ∀ (st2 : FileSys) (path2 : String),
        readFile fs cwd st2 path2 ≠ .error (.denied .fileTooBig)) := by
  refine ⟨?_, ?_, ?_⟩
  · intro hpos hbig hval
    have hcond : fs.maxFileSize > 0 ∧ (data.length : Int) > fs.maxFileSize := ⟨hpos, hbig⟩
    simp [writeFile, hval, hcond]
  · intro hpos heq hval
    have hcond : ¬(fs.maxFileSize > 0 ∧ (data.length : Int) > fs.maxFileSize) := by omega
    simp [writeFile, hval, hcond]
  · intro hzero
    constructor
    · cases hv : validatePath fs cwd path with
      | some e =>
        have hne := validatePath_ne_fileTooBig fs cwd path
        rw [hv] at hne
        simp [writeFile, hv]
        simpa using hne
      | none =>
        simp [writeFile, hv, hzero]
    · intro st2 path2
      cases hv : validatePath fs cwd path2 with
      | some e =>
        have hne := validatePath_ne_fileTooBig fs cwd path2
        rw [hv] at hne
        simp [readFile, hv]
        simpa using hne
      | none =>
        cases hl : st2.files.lookup path2 with
        | none => simp [readFile, hv, hl]
        | some data2 => simp [readFile, hv, hl, hzero]

/-- Witness for `writeFile_size_cap` with cap 5: a 6-byte write is
rejected without touching the state, a 5-byte write passes. -/
theorem writeFile_size_cap_witness :
    validatePath (newSafeFS ["/tmp"] 5 [] []) "/" "/tmp/f" = none ∧
    writeFile (newSafeFS ["/tmp"] 5 [] []) "/" ⟨[], []⟩ "/tmp/f" [0, 0, 0, 0, 0, 0]
      = (some .fileTooBig, ⟨[], []⟩) ∧
    (writeFile (newSafeFS ["/tmp"] 5 [] []) "/" ⟨[], []⟩ "/tmp/f" [0, 0, 0, 0, 0]).1 = none :=
  ⟨by decide,
   (writeFile_size_cap (newSafeFS ["/tmp"] 5 [] []) "/" ⟨[], []⟩ "/tmp/f"
      [0, 0, 0, 0, 0, 0]).1 (by decide) (by decide) (by decide),
   (writeFile_size_cap (newSafeFS ["/tmp"] 5 [] []) "/" ⟨[], []⟩ "/tmp/f"
      [0, 0, 0, 0, 0]).2.1 (by decide) (by decide) (by decide)⟩

/-! ## Policy store seeding (C8) -/

/-- C8: seeding runs exactly when the stored rule set is empty (a non-empty
store is returned unchanged, an empty store receives exactly the default
permissions) and is idempotent. -/
theorem initDefaults_spec :
    (∀ ps : List Perm, ps ≠ [] → initDefaults ps = ps) ∧
    (∀ ps : List Perm, initDefaults (initDefaults ps) = initDefaults ps) ∧
    initDefaults [] = defaultPermissions := by
  have h1 : ∀ ps : List Perm, ps ≠ [] → initDefaults ps = ps := by
    intro ps hps
    unfold initDefaults
    rw [if_pos (List.length_pos.mpr hps)]
  have h3 : initDefaults [] = defaultPermissions := by decide
  refine ⟨h1, ?_, h3⟩
  intro ps
  by_cases hps : ps = []
  · subst hps
    rw [h3, h1 defaultPermissions (by decide)]
  · rw [h1 ps hps, h1 ps hps]

/-- Witness for `initDefaults_spec` on the seeded store itself. -/
theorem initDefaults_spec_witness :
    defaultPermissions ≠ [] ∧ initDefaults defaultPermissions = defaultPermissions :=
  ⟨by decide, initDefaults_spec.1 defaultPermissions (by decide)⟩

/-! ## Identity tokens (C3, C9) -/

/-- C3 (counterexample): a token whose MAC verifies under the manager's
secret and which is inside its validity window, but whose issuer claim is
foreign, is accepted by `ValidateToken` and yields its identity — not a
wrong-issuer error, refuting the claim. -/
theorem validateToken_wrong_issuer_ok :
    foreignIssuerClaims.issuer ≠ demoJWT.issuer ∧
    validateToken demoJWT 500 foreignIssuerToken = .ok foreignIssuerClaims := by
  exact ⟨by decide, rfl⟩

/-- C3 (amended): `ValidateToken` never inspects the issuer claim — every
token with an HMAC-family algorithm, a MAC that verifies under the shared
secret, an unexpired validity window, and a passed not-before instant is
accepted with its identity returned, whatever its issuer claim holds. -/
theorem validateToken_ignores_issuer (j : JWTManager) (now : Int) (t : SignedToken)
    (halg : isHMACAlg t.alg = true)
    (hsig : t.sig = ⟨j.secretKey, t.alg, t.claims⟩)
    (hexp : now < t.claims.expiresAt)
    (hnbf : t.claims.notBefore ≤ now) :
    validateToken j now t = .ok t.claims := by
  have h1 : ¬ t.claims.expiresAt ≤ now := not_le.mpr hexp
  have h2 : ¬ now < t.claims.notBefore := not_lt.mpr hnbf
  simp [validateToken, halg, hsig, h1, h2]

/-- Witness for `validateToken_ignores_issuer` on the foreign-issuer
token. -/
theorem validateToken_ignores_issuer_witness :
    isHMACAlg foreignIssuerToken.alg = true ∧
    validateToken demoJWT 500 foreignIssuerToken = .ok foreignIssuerToken.claims :=
  ⟨by decide,
   validateToken_ignores_issuer demoJWT 500 foreignIssuerToken
     (by decide) (by decide) (by decide) (by decide)⟩

/-- C9: verifying a freshly minted token (at its minting instant, with a
positive configured TTL) succeeds and returns exactly the minted identity,
with the configured issuer and the validity window populated. -/
theorem validateToken_generateToken (j : JWTManager) (now : Int) (u d : String)
    (r : List String) (h : 0 < j.tokenExpiry) :
    validateToken j now (generateToken j now u d r) = .ok (generateToken j now u d r).claims ∧
    (generateToken j now u d r).claims.userID = u ∧
    (generateToken j now u d r).claims.username = d ∧
    (generateToken j now u d r).claims.roles = r ∧
    (generateToken j now u d r).claims.issuer = j.issuer ∧
    (generateToken j now u d r).claims.subject = u ∧
    (generateToken j now u d r).claims.issuedAt = now ∧
    (generateToken j now u d r).claims.notBefore = now ∧
    (generateToken j now u d r).claims.expiresAt = now + j.tokenExpiry := by
  refine ⟨?_, rfl, rfl, rfl, rfl, rfl, rfl, rfl, rfl⟩
  have h1 : ¬ now + j.tokenExpiry ≤ now := by omega
  have h2 : ¬ now < now := lt_irrefl now
  simp [validateToken, generateToken, isHMACAlg, h1, h2]

/-- Witness for `validateToken_generateToken` under `demoJWT`. -/
theorem validateToken_generateToken_witness :
    (0 : Int) < demoJWT.tokenExpiry ∧
    validateToken demoJWT 100 (generateToken demoJWT 100 "u9" "carol" ["admin"])
      = .ok (generateToken demoJWT 100 "u9" "carol" ["admin"]).claims :=
  ⟨by decide,
   (validateToken_generateToken demoJWT 100 "u9" "carol" ["admin"] (by decide)).1⟩

/-! ## JSON-RPC frame validation (C4) -/

/-- C4 (counterexample): a version-2.0 frame with an id, no method, and
both `result` and `error` set is classified as a response and is accepted
by `ValidateMessage`, refuting the claim that such a frame is rejected. -/
theorem validateMessage_accepts_result_and_error :
    bothPayloadResp.IsResponse = true ∧
    bothPayloadResp.result.isSome = true ∧
    bothPayloadResp.error.isSome = true ∧
    validateMessage bothPayloadResp = none :=
  ⟨rfl, rfl, rfl, rfl⟩

/-- C4 (amended): a frame classified as a response carries at least one of
`result`/`error` (that is part of the classification predicate itself), but
`ValidateMessage` enforces no exclusivity: its only effective rejection is
the version check, so it accepts exactly the frames whose `jsonrpc` field
is `"2.0"` — including a response with both `result` and `error` set. -/
theorem validateMessage_version_only :
    (∀ m : Message, m.IsResponse = true →
      (m.result.isSome || m.error.isSome) = true) ∧
    (∀ m : Message, validateMessage m = none ↔ m.jsonrpc = "2.0") := by
  constructor
  · intro m h
    unfold Message.IsResponse at h
    rw [Bool.and_eq_true] at h
    exact h.2
  · intro m
    constructor
    · intro h
      by_contra hne
      have : ¬ (m.jsonrpc == "2.0") = true := by
        simpa using hne
      simp [validateMessage, this] at h
    · intro h2
      have hv : (m.jsonrpc == "2.0") = true := by simpa using h2
      have hreq : (if m.IsRequest then
             (if m.method == "" then some ValidateErr.requestMissingMethod
              else if !m.id.isSome then some ValidateErr.requestMissingId
              else none)
           else none) = none := by
        by_cases hr : m.IsRequest = true
        · have hparts := hr
          unfold Message.IsRequest at hparts
          rw [Bool.and_eq_true, Bool.not_eq_true'] at hparts
          have hm : ¬ (m.method == "") = true := by simp [hparts.1]
          have hid : m.id.isSome = true := hparts.2
          simp [hr, hm, hid]
        · simp [Bool.not_eq_true] at hr
          simp [hr]
      have hresp : (if m.IsResponse then
            (if !m.id.isSome then some ValidateErr.responseMissingId
             else if !m.result.isSome && !m.error.isSome then some ValidateErr.responseMissingPayload
             else none)
          else none) = none := by
        by_cases hr : m.IsResponse = true
        · have hparts := hr
          unfold Message.IsResponse at hparts
          rw [Bool.and_eq_true, Bool.and_eq_true] at hparts
          have hid : m.id.isSome = true := hparts.1.1
          have hpay := hparts.2
          rw [Bool.or_eq_true] at hpay
          simp [hr, hid]
          intro hres
          rcases hpay with hsome | hsome
          · rw [hres] at hsome; simp at hsome
          · intro he; rw [he] at hsome; simp at hsome
        · simp [Bool.not_eq_true] at hr
          simp [hr]
      unfold validateMessage
      rw [hreq]
      simp only [hv, Bool.not_true, Bool.false_eq_true, if_false]
      exact hresp

/-- Witness for `validateMessage_version_only` on a well-formed response. -/
theorem validateMessage_version_only_witness :
    okResp.IsResponse = true ∧
    (okResp.result.isSome || okResp.error.isSome) = true ∧
    (validateMessage okResp = none ↔ okResp.jsonrpc = "2.0") :=
  ⟨rfl, validateMessage_version_only.1 okResp rfl, validateMessage_version_only.2 okResp⟩

/-! ## Gadget names, system classification, execute authorization
(C2, C6, C10) -/

/-- A character whose ASCII lower-casing lands in a valid-name character is
itself a valid-name character. -/
theorem validChar_of_lowerEq {c d : Char} (h : lowerChar c = d)
    (hd : validChar d = true) : validChar c = true := by
  unfold lowerChar at h
  split_ifs at h with hAZ
  · simp [validChar, hAZ.1, hAZ.2]
  · rw [h]
    exact hd

/-- Pointwise: a list whose lower-casing equals a list of valid-name
characters consists of valid-name characters. -/
theorem all_validChar_of_lowerL {l t : List Char} (h : lowerL l = t)
    (ht : t.all validChar = true) : l.all validChar = true := by
  induction l generalizing t with
  | nil => simp
  | cons c cs ih =>
    cases t with
    | nil => simp [lowerL] at h
    | cons d ds =>
      unfold lowerL at h
      rw [List.map_cons, List.cons.injEq] at h
      rw [List.all_cons, Bool.and_eq_true] at ht ⊢
      exact ⟨validChar_of_lowerEq h.1 ht.1, ih h.2 ht.2⟩

/-- Every name classified as a system gadget passes name validation: it is
a case variant of one of the four ASCII roster names. -/
theorem isSystemGadget_valid {name : String} (h : isSystemGadget name = true) :
    isValidGadgetName name = true := by
  have hlen : name.length = (charsOf name).length := rfl
  unfold isSystemGadget systemGadgets at h
  rw [List.any_eq_true] at h
  obtain ⟨sg, hsg, hfold⟩ := h
  unfold equalFold at hfold
  rw [beq_iff_eq] at hfold
  have hmaplen : (charsOf name).length = (lowerL (charsOf sg)).length := by
    rw [← hfold]
    exact (List.length_map _ _).symm
  unfold isValidGadgetName
  rw [Bool.and_eq_true, Bool.and_eq_true]
  fin_cases hsg <;>
    refine ⟨⟨all_validChar_of_lowerL hfold (by decide), ?_⟩, ?_⟩ <;>
    · rw [hlen, hmaplen]
      decide

/-- The middleware's role loop cannot hit an enforcement error when the
oracle is total. -/
theorem roleCheckLoop_ne_none (enf : Enf) (object action : String)
    (henf : ∀ s o a, (enf s o a).isSome = true) :
    ∀ roles : List String, roleCheckLoop enf roles object action ≠ none := by
  intro roles
  induction roles with
  | nil => simp [roleCheckLoop]
  | cons r rest ih =>
    unfold roleCheckLoop
    cases h : enf ("role:" ++ r) object action with
    | none =>
      have := henf ("role:" ++ r) object action
      rw [h] at this
      simp at this
    | some b => cases b <;> simp [ih]

/-- With a total oracle, the `RequirePermission` middleware on an
authenticated request either passes through or aborts with 403. -/
theorem requirePermission_cases (enf : Enf) (cl : Claims) (o a : String)
    (henf : ∀ s o a, (enf s o a).isSome = true) :
    requirePermission enf (some cl) o a = none ∨
    requirePermission enf (some cl) o a = some 403 := by
  simp only [requirePermission]
  cases hd : enf cl.username o a with
  | none =>
    have := henf cl.username o a
    rw [hd] at this
    simp at this
  | some b =>
    cases b with
    | true => simp
    | false =>
      cases hrl : roleCheckLoop enf cl.roles o a with
      | none => exact absurd hrl (roleCheckLoop_ne_none enf o a henf cl.roles)
      | some b2 => cases b2 <;> simp

/-- A caller that holds `(system, manage)` neither directly nor through any
role fails `CheckPermission`. -/
theorem checkPermission_eq_false (enf : Enf) (cl : Claims) (object action : String)
    (hdirect : enf cl.username object action ≠ some true)
    (hroles : ∀ r ∈ cl.roles, enf ("role:" ++ r) object action ≠ some true) :
    checkPermission enf cl object action = false := by
  unfold checkPermission
  rw [if_neg hdirect]
  rw [List.any_eq_false]
  intro r hr
  simp only [decide_eq_true_eq]
  exact hroles r hr

/-- C2: a system-classified gadget name executed by an authenticated caller
who holds `(system, manage)` neither directly nor via any role yields
HTTP 403 with no subprocess spawned (whether the denial comes from the
`(gadgets, execute)` middleware or the in-handler system check); and a
valid non-system name needs only the `(gadgets, execute)` middleware to
pass for the subprocess to be spawned. -/
theorem executeGadget_system_requires_manage
    (enf : Enf) (name : String) (cl : Claims) (runOk : Bool)
    (henf : ∀ s o a, (enf s o a).isSome = true)
    (hsys : isSystemGadget name = true)
    (hdirect : enf cl.username "system" "manage" ≠ some true)
    (hroles : ∀ r ∈ cl.roles, enf ("role:" ++ r) "system" "manage" ≠ some true) :
    executeGadgetRoute enf name true (some cl) runOk = ⟨403, false⟩ ∧
    (∀ (enf2 : Enf) (name2 : String) (cl2 : Claims) (runOk2 : Bool),
      isSystemGadget name2 = false → isValidGadgetName name2 = true →
      requirePermission enf2 (some cl2) "gadgets" "execute" = none →
      (executeGadgetRoute enf2 name2 true (some cl2) runOk2).spawned = true) := by
  constructor
  · have hvalid := isSystemGadget_valid hsys
    have hcp := checkPermission_eq_false enf cl "system" "manage" hdirect hroles
    have hhandler : executeGadget enf name true (some cl) runOk = ⟨403, false⟩ := by
      unfold executeGadget
      simp [hvalid, hsys, hcp]
    unfold executeGadgetRoute
    rcases requirePermission_cases enf cl "gadgets" "execute" henf with hm | hm
    · rw [hm]
      exact hhandler
    · rw [hm]
  · intro enf2 name2 cl2 runOk2 hns hvalid2 hmw
    unfold executeGadgetRoute
    rw [hmw]
    unfold executeGadget
    simp [hvalid2, hns]
    cases runOk2 <;> simp

/-- Witness for `executeGadget_system_requires_manage`: user `bob` (role
`user`) holds `(gadgets, execute)` but not `(system, manage)` and is denied
on `sysinfo`, while `echo` spawns. -/
theorem executeGadget_system_requires_manage_witness :
    isSystemGadget "sysinfo" = true ∧
    executeGadgetRoute demoEnf "sysinfo" true (some demoClaims) true = ⟨403, false⟩ ∧
    (executeGadgetRoute demoEnf "echo" true (some demoClaims) true).spawned = true :=
  ⟨by decide,
   (executeGadget_system_requires_manage demoEnf "sysinfo" demoClaims true
      (fun _ _ _ => rfl) (by decide) (by decide) (by decide)).1,
   (executeGadget_system_requires_manage demoEnf "sysinfo" demoClaims true
      (fun _ _ _ => rfl) (by decide) (by decide) (by decide)).2
     demoEnf "echo" demoClaims true (by decide) (by decide) (by decide)⟩

/-- C6: a gadget name is accepted iff it is 1–50 characters drawn from
`[A-Za-z0-9_-]`, and an invalid name makes the execute handler answer 400
with no subprocess spawned (and the full route spawn nothing). -/
theorem isValidGadgetName_spec :
    (∀ name : String, isValidGadgetName name = true ↔
      (1 ≤ name.length ∧ name.length ≤ 50 ∧ ∀ c ∈ charsOf name, validChar c = true)) ∧
    (∀ (enf : Enf) (name : String) (bodyOk : Bool) (claims : Option Claims) (runOk : Bool),
      isValidGadgetName name = false →
      executeGadget enf name bodyOk claims runOk = ⟨400, false⟩ ∧
      (executeGadgetRoute enf name bodyOk claims runOk).spawned = false) := by
  constructor
  · intro name
    unfold isValidGadgetName
    rw [Bool.and_eq_true, Bool.and_eq_true, List.all_eq_true]
    constructor
    · rintro ⟨⟨hall, hpos⟩, hle⟩
      refine ⟨by simpa using hpos, by simpa using hle, hall⟩
    · rintro ⟨hpos, hle, hall⟩
      exact ⟨⟨hall, by simpa using hpos⟩, by simpa using hle⟩
  · intro enf name bodyOk claims runOk h
    have hhandler : executeGadget enf name bodyOk claims runOk = ⟨400, false⟩ := by
      unfold executeGadget
      simp [h]
    refine ⟨hhandler, ?_⟩
    unfold executeGadgetRoute
    cases requirePermission enf claims "gadgets" "execute" with
    | none => rw [hhandler]
    | some s => rfl

/-- Witness for `isValidGadgetName_spec`: boundary lengths behave as
claimed and an invalid name is rejected with 400. -/
theorem isValidGadgetName_spec_witness :
    isValidGadgetName "a" = true ∧
    isValidGadgetName (strOf (List.replicate 50 'a')) = true ∧
    isValidGadgetName "" = false ∧
    isValidGadgetName (strOf (List.replicate 51 'a')) = false ∧
    executeGadget demoEnf "bad name!" true (some demoClaims) true = ⟨400, false⟩ :=
  ⟨by decide, by decide, by decide, by decide,
   (isValidGadgetName_spec.2 demoEnf "bad name!" true (some demoClaims) true (by decide)).1⟩

/-- `Char.ofNat` evaluates on valid scalar values. -/
theorem charToNat_ofNat (n : Nat) (h : n.isValidChar) : (Char.ofNat n).toNat = n := by
  simp [Char.ofNat, h, Char.ofNatAux, Char.toNat, UInt32.toNat, BitVec.toNat_ofNatLt]

/-- Characters with equal scalar values are equal. -/
theorem char_eq_of_toNat {a b : Char} (h : a.toNat = b.toNat) : a = b := by
  rw [← Char.ofNat_toNat a, ← Char.ofNat_toNat b, h]

/-- `foldChar` at the character-code level. -/
theorem foldChar_toNat (a : Char) :
    (foldChar a).toNat =
      (if a.toNat = 0x212A then 107
       else if a.toNat = 0x17F then 115
       else if 65 ≤ a.toNat ∧ a.toNat ≤ 90 then a.toNat + 32
       else a.toNat) := by
  rw [foldChar, lowerChar]
  by_cases h1 : a.toNat = 0x212A
  · rw [if_pos (by simpa using h1), if_pos h1]
    rfl
  · rw [if_neg (by simpa using h1), if_neg h1]
    by_cases h2 : a.toNat = 0x17F
    · rw [if_pos (by simpa using h2), if_pos h2]
      rfl
    · rw [if_neg (by simpa using h2), if_neg h2]
      by_cases h3 : 65 ≤ a.toNat ∧ a.toNat ≤ 90
      · rw [if_pos ⟨h3.1, h3.2⟩, if_pos h3]
        exact charToNat_ofNat _ (Or.inl (by omega))
      · rw [if_neg ?hcap, if_neg h3]
        case hcap =>
          rintro ⟨hc1, hc2⟩
          exact h3 ⟨hc1, hc2⟩

/-- One fold step against a lowercase-ASCII-or-hyphen rune accepts exactly
the runes whose fold-lowering is that rune. -/
theorem foldStep_eq_foldChar (a b : Char)
    (hb : ('a' ≤ b ∧ b ≤ 'z') ∨ b = '-') :
    (foldStep a b = true ↔ foldChar a = b) := by
  have hnb : (97 ≤ b.toNat ∧ b.toNat ≤ 122) ∨ b.toNat = 45 := by
    rcases hb with ⟨h1, h2⟩ | h1
    · exact Or.inl ⟨h1, h2⟩
    · subst h1
      exact Or.inr rfl
  have hrhs : (foldChar a = b) ↔ (foldChar a).toNat = b.toNat :=
    ⟨fun h => by rw [h], char_eq_of_toNat⟩
  rw [hrhs, foldChar_toNat]
  by_cases heq : a = b
  · subst heq
    rw [foldStep, if_pos (beq_self_eq_true a)]
    rw [if_neg (by omega), if_neg (by omega), if_neg (by omega)]
    simp
  · have hab : (a == b) = false := beq_eq_false_iff_ne.mpr heq
    have hnab : a.toNat ≠ b.toNat := fun h => heq (char_eq_of_toNat h)
    rw [foldStep, hab]
    simp only [Bool.false_eq_true, if_false]
    by_cases h212A : a.toNat = 0x212A
    · -- a is the KELVIN SIGN: b < a, a beyond ASCII, match iff b = k
      have hlt : b < a := show b.toNat < a.toNat by omega
      rw [if_pos hlt, if_pos hlt, if_neg (show ¬a.toNat < 128 by omega)]
      rw [if_pos h212A]
      have hbK : (b == 'K') = false :=
        beq_eq_false_iff_ne.mpr fun h => by
          rw [h] at hnb
          revert hnb
          decide
      have hbS : (b == 'S') = false :=
        beq_eq_false_iff_ne.mpr fun h => by
          rw [h] at hnb
          revert hnb
          decide
      simp only [hbK, hbS, Bool.false_or, Bool.or_eq_true, Bool.and_eq_true,
        beq_iff_eq]
      constructor
      · rintro (⟨hk, _⟩ | ⟨_, h17⟩)
        · rw [hk]
          rfl
        · omega
      · intro h
        refine Or.inl ⟨?_, h212A⟩
        exact char_eq_of_toNat h.symm
    · by_cases h17F : a.toNat = 0x17F
      · -- a is the LONG S: b < a, a beyond ASCII, match iff b = s
        have hlt : b < a := show b.toNat < a.toNat by omega
        rw [if_pos hlt, if_pos hlt, if_neg (show ¬a.toNat < 128 by omega)]
        rw [if_neg h212A, if_pos h17F]
        have hbK : (b == 'K') = false :=
          beq_eq_false_iff_ne.mpr fun h => by
            rw [h] at hnb
            revert hnb
            decide
        have hbS : (b == 'S') = false :=
          beq_eq_false_iff_ne.mpr fun h => by
            rw [h] at hnb
            revert hnb
            decide
        simp only [hbK, hbS, Bool.false_or, Bool.or_eq_true, Bool.and_eq_true,
          beq_iff_eq]
        constructor
        · rintro (⟨_, h21⟩ | ⟨hs, _⟩)
          · omega
          · rw [hs]
            rfl
        · intro h
          refine Or.inr ⟨?_, h17F⟩
          exact char_eq_of_toNat h.symm
      · rw [if_neg h212A, if_neg h17F]
        by_cases hup : 65 ≤ a.toNat ∧ a.toNat ≤ 90
        · -- a is an ASCII capital: a < b, or b is the hyphen below a
          rw [if_pos hup]
          rcases hnb with ⟨hb1, hb2⟩ | hhy
          · -- b lowercase: a < b, both ASCII, the capital/lowercase pairing
            have hnlt : ¬b < a := show ¬b.toNat < a.toNat by omega
            rw [if_neg hnlt, if_neg hnlt, if_pos (show b.toNat < 128 by omega)]
            have hcap : ('A' ≤ a && a ≤ 'Z') = true := by
              rw [Bool.and_eq_true]
              exact ⟨decide_eq_true hup.1, decide_eq_true hup.2⟩
            rw [hcap]
            simp only [Bool.true_and, beq_iff_eq]
            omega
          · -- b is the hyphen: b < a, the pairing test fails
            have hlt : b < a := show b.toNat < a.toNat by omega
            rw [if_pos hlt, if_pos hlt, if_pos (show a.toNat < 128 by omega)]
            have hncap : ('A' ≤ b && b ≤ 'Z') = false := by
              rw [Bool.and_eq_false_iff]
              exact Or.inl (decide_eq_false fun h => by
                have hn : 65 ≤ b.toNat := h
                omega)
            rw [hncap]
            simp only [Bool.false_and, Bool.false_eq_true, false_iff]
            omega
        · -- a folds to itself and differs from b: both sides are false
          rw [if_neg hup]
          simp only [iff_false_intro hnab, iff_false]
          intro hstep
          by_cases hlt : b < a
          · have hltn : b.toNat < a.toNat := hlt
            rw [if_pos hlt, if_pos hlt] at hstep
            by_cases hhi : a.toNat < 128
            · rw [if_pos hhi] at hstep
              rw [Bool.and_eq_true, Bool.and_eq_true] at hstep
              have hc1 : 65 ≤ b.toNat := of_decide_eq_true hstep.1.1
              have hc2 : b.toNat ≤ 90 := of_decide_eq_true hstep.1.2
              omega
            · rw [if_neg hhi] at hstep
              simp only [Bool.or_eq_true, Bool.and_eq_true, beq_iff_eq] at hstep
              rcases hstep with ⟨_, h21⟩ | ⟨_, h17⟩
              · exact h212A h21
              · exact h17F h17
          · have hltn : ¬b.toNat < a.toNat := fun h => hlt h
            rw [if_neg hlt, if_neg hlt] at hstep
            by_cases hhi : b.toNat < 128
            · rw [if_pos hhi] at hstep
              rw [Bool.and_eq_true, Bool.and_eq_true] at hstep
              have hc1 : 65 ≤ a.toNat := of_decide_eq_true hstep.1.1
              have hc2 : a.toNat ≤ 90 := of_decide_eq_true hstep.1.2
              exact hup ⟨hc1, hc2⟩
            · rw [if_neg hhi] at hstep
              simp only [Bool.or_eq_true, Bool.and_eq_true, beq_iff_eq] at hstep
              rcases hstep with ⟨_, h21⟩ | ⟨_, h17⟩ <;> omega

/-- The fold loop against an all-lowercase-ASCII word accepts exactly the
strings whose fold-lowering is that word. -/
theorem foldEqL_ascii (l t : List Char)
    (ht : ∀ c ∈ t, ('a' ≤ c ∧ c ≤ 'z') ∨ c = '-') :
    (foldEqL l t = true ↔ l.map foldChar = t) := by
  induction l generalizing t with
  | nil =>
    cases t with
    | nil => simp [foldEqL]
    | cons b t2 => simp [foldEqL]
  | cons a l2 ih =>
    cases t with
    | nil => simp [foldEqL]
    | cons b t2 =>
      have hb := ht b (List.mem_cons_self b t2)
      have ht2 : ∀ c ∈ t2, ('a' ≤ c ∧ c ≤ 'z') ∨ c = '-' :=
        fun c hc => ht c (List.mem_cons_of_mem b hc)
      simp only [foldEqL, Bool.and_eq_true, List.map_cons, List.cons.injEq]
      exact and_congr (foldStep_eq_foldChar a b hb) (ih t2 ht2)

/-- C10 counterexample: `strings.EqualFold` is Unicode simple folding, not
ASCII case folding, so classification reaches beyond case variants — the
name `proce` + U+017F + `s` is classified as a system gadget although its
lower-casing (U+017F is untouched by `ToLower`) is none of the four roster
names. -/
theorem isSystemGadget_long_s_variant :
    isSystemGadgetGo procLongS = true ∧
    goToLower procLongS ≠ "sysinfo" ∧ goToLower procLongS ≠ "network-scanner" ∧
    goToLower procLongS ≠ "process" ∧ goToLower procLongS ≠ "hardware" := by
  decide

/-- C10: system-gadget classification is insensitive to Unicode simple
folding, not merely to ASCII case: `isSystemGadget` accepts a name iff its
fold-lowering — ASCII lower-casing extended with the two cross-ASCII fold
orbits U+212A (KELVIN SIGN) → `k` and U+017F (LATIN SMALL LETTER LONG S)
→ `s` — is one of the four roster names. ASCII case variants such as
`SysInfo` and `SYSINFO` are classified system, and so is the long-s
variant of `process`; every name outside the fold classes of the roster is
not. -/
theorem isSystemGadget_simple_fold :
    isSystemGadgetGo "SysInfo" = true ∧
    isSystemGadgetGo "SYSINFO" = true ∧
    isSystemGadgetGo procLongS = true ∧
    (∀ name : String, isSystemGadgetGo name = true ↔
      (foldLower name = "sysinfo" ∨ foldLower name = "network-scanner" ∨
       foldLower name = "process" ∨ foldLower name = "hardware")) := by
  refine ⟨by decide, by decide, by decide, ?_⟩
  intro name
  unfold isSystemGadgetGo systemGadgets equalFoldGo
  rw [List.any_eq_true]
  have hdata : ∀ t : String, foldLower name = t →
      (charsOf name).map foldChar = charsOf t := by
    intro t ht
    rw [← ht]
    rfl
  constructor
  · rintro ⟨sg, hsg, hfold⟩
    fin_cases hsg
    · exact Or.inl (by
        unfold foldLower strOf
        rw [(foldEqL_ascii _ _ (by decide)).mp hfold]
        rfl)
    · exact Or.inr (Or.inl (by
        unfold foldLower strOf
        rw [(foldEqL_ascii _ _ (by decide)).mp hfold]
        rfl))
    · exact Or.inr (Or.inr (Or.inl (by
        unfold foldLower strOf
        rw [(foldEqL_ascii _ _ (by decide)).mp hfold]
        rfl)))
    · exact Or.inr (Or.inr (Or.inr (by
        unfold foldLower strOf
        rw [(foldEqL_ascii _ _ (by decide)).mp hfold]
        rfl)))
  · rintro (h | h | h | h)
    · exact ⟨"sysinfo", by decide, (foldEqL_ascii _ _ (by decide)).mpr (hdata _ h)⟩
    · exact ⟨"network-scanner", by decide, (foldEqL_ascii _ _ (by decide)).mpr (hdata _ h)⟩
    · exact ⟨"process", by decide, (foldEqL_ascii _ _ (by decide)).mpr (hdata _ h)⟩
    · exact ⟨"hardware", by decide, (foldEqL_ascii _ _ (by decide)).mpr (hdata _ h)⟩

/-! ## JSON codec inverse lemmas (towards C5)

The decoder inverts the encoder. The proof follows the usual printer/parser
structure: digits first, then string escapes, then the mutual structural
induction over values.
-/

/-- A digit character is distinct from any non-digit character. -/
theorem digit_ne_of {c : Char} (hdig : isDigitCh c = true) (d : Char)
    (hd : isDigitCh d = false) : c ≠ d := by
  intro h
  subst h
  rw [hdig] at hd
  cases hd

theorem digCh_digit (k : Nat) (h : k < 10) : isDigitCh (digCh k) = true := by
  interval_cases k <;> decide

theorem digCh_val (k : Nat) (h : k < 10) : (digCh k).toNat - 48 = k := by
  interval_cases k <;> decide

/-- One last-digit-first unfolding of `natDigs`. -/
theorem natDigs_eq (n : Nat) :
    natDigs n = (if n < 10 then [] else natDigs (n / 10)) ++ [digCh (n % 10)] := by
  rw [natDigs]
  split_ifs with h
  · rw [List.nil_append, Nat.mod_eq_of_lt h]
  · rfl

theorem natDigs_ne_nil (n : Nat) : natDigs n ≠ [] := by
  rw [natDigs_eq]
  simp

theorem natDigs_all_digits (n : Nat) : ∀ c ∈ natDigs n, isDigitCh c = true := by
  induction n using Nat.strong_induction_on with
  | _ n ih =>
    rw [natDigs_eq]
    intro c hc
    rw [List.mem_append] at hc
    rcases hc with hc | hc
    · split_ifs at hc with h
      · simp at hc
      · exact ih (n / 10) (Nat.div_lt_self (by omega) (by omega)) c hc
    · rw [List.mem_singleton] at hc
      subst hc
      exact digCh_digit _ (Nat.mod_lt _ (by omega))

theorem natDigs_head (n : Nat) : ∃ c t, natDigs n = c :: t ∧ isDigitCh c = true := by
  cases h : natDigs n with
  | nil => exact absurd h (natDigs_ne_nil n)
  | cons c t =>
    refine ⟨c, t, rfl, natDigs_all_digits n c ?_⟩
    rw [h]
    simp

theorem digsToNat_snoc (ds : List Char) (c : Char) :
    digsToNat (ds ++ [c]) = digsToNat ds * 10 + (c.toNat - 48) := by
  unfold digsToNat
  rw [List.foldl_append]
  rfl

/-- The decimal renderer and reader are inverse. -/
theorem digsToNat_natDigs (n : Nat) : digsToNat (natDigs n) = n := by
  induction n using Nat.strong_induction_on with
  | _ n ih =>
    rw [natDigs_eq, digsToNat_snoc]
    split_ifs with h
    · have h0 : digsToNat [] = 0 := rfl
      rw [h0, digCh_val (n % 10) (Nat.mod_lt _ (by omega))]
      omega
    · rw [ih (n / 10) (Nat.div_lt_self (by omega) (by omega))]
      rw [digCh_val (n % 10) (Nat.mod_lt _ (by omega))]
      omega

theorem takeDigs_stop {cs : List Char} (h : numStop cs = true) :
    takeDigs cs = ([], cs) := by
  cases cs with
  | nil => rfl
  | cons c t =>
    unfold numStop at h
    rw [Bool.not_eq_true'] at h
    simp [takeDigs, h]

/-- `takeDigs` consumes exactly a digit run when what follows starts with a
non-digit. -/
theorem takeDigs_run (ds : List Char) (hds : ∀ c ∈ ds, isDigitCh c = true)
    (rest : List Char) (hrest : takeDigs rest = ([], rest)) :
    takeDigs (ds ++ rest) = (ds, rest) := by
  induction ds with
  | nil => simpa using hrest
  | cons c t ih =>
    have hc : isDigitCh c = true := hds c (by simp)
    have ht := ih fun x hx => hds x (by simp [hx])
    simp [takeDigs, hc, ht]

/-- The integer codec round trip, for remainders that cannot extend the
number. -/
theorem parseNum_intChars (i : Int) (rest : List Char) (hr : numStop rest = true) :
    parseNum (intChars i ++ rest) = some (i, rest) := by
  have htake := takeDigs_run (natDigs i.natAbs) (natDigs_all_digits _) rest (takeDigs_stop hr)
  have hnenil : (natDigs i.natAbs == []) = false := by
    simp [natDigs_ne_nil]
  by_cases hneg : i < 0
  · have harg : intChars i ++ rest = '-' :: (natDigs i.natAbs ++ rest) := by
      simp [intChars, hneg]
    have hval : -(digsToNat (natDigs i.natAbs) : Int) = i := by
      rw [digsToNat_natDigs]
      omega
    rw [harg]
    simp only [parseNum, htake, hnenil]
    simp [hval]
  · obtain ⟨c, t, hct, hc⟩ := natDigs_head i.natAbs
    have harg : intChars i ++ rest = c :: (t ++ rest) := by
      simp [intChars, hneg, hct]
    have hval : (digsToNat (natDigs i.natAbs) : Int) = i := by
      rw [digsToNat_natDigs]
      omega
    have hcm : (c == '-') = false := by
      simp [digit_ne_of hc '-' (by decide)]
    rw [harg]
    simp only [parseNum, hcm]
    rw [show c :: (t ++ rest) = (c :: t) ++ rest from rfl, ← hct]
    simp only [htake, hnenil]
    simp [hval]

theorem hexNib_hexDig (k : Nat) (h : k < 16) : hexNib (hexDig k) = some k := by
  interval_cases k <;> decide

/-- Decoding undoes one character's escape. -/
theorem parseStrBody_esc (c : Char) (acc rest : List Char) :
    parseStrBody acc (escChar c ++ rest) = parseStrBody (c :: acc) rest := by
  by_cases h1 : c = '"'
  · subst h1; simp +decide [escChar, parseStrBody, parseEsc, unescChar]
  by_cases h2 : c = '\\'
  · subst h2; simp +decide [escChar, parseStrBody, parseEsc, unescChar]
  by_cases h3 : c = '\n'
  · subst h3; simp +decide [escChar, parseStrBody, parseEsc, unescChar]
  by_cases h4 : c = '\r'
  · subst h4; simp +decide [escChar, parseStrBody, parseEsc, unescChar]
  by_cases h5 : c = '\t'
  · subst h5; simp +decide [escChar, parseStrBody, parseEsc, unescChar]
  by_cases h6 : c.toNat < 32
  · -- control character: escaped as \u00XY
    have hesc : escChar c = ['\\', 'u', '0', '0', hexDig (c.toNat / 16), hexDig (c.toNat % 16)] := by
      simp [escChar, h1, h2, h3, h4, h5, h6]
    have hz := hexNib_hexDig (c.toNat / 16) (by omega)
    have hw := hexNib_hexDig (c.toNat % 16) (Nat.mod_lt _ (by omega))
    have hval : ((0 * 16 + 0) * 16 + c.toNat / 16) * 16 + c.toNat % 16 = c.toNat := by
      omega
    have hchar : Char.ofNat (((0 * 16 + 0) * 16 + c.toNat / 16) * 16 + c.toNat % 16) = c := by
      rw [hval, Char.ofNat_toNat]
    rw [hesc]
    simp only [List.cons_append, List.nil_append]
    simp +decide [parseStrBody, parseEsc, parseU, hz, hw, hchar,
      show hexNib '0' = some 0 from rfl]
    have harith : c.toNat / 16 * 16 + c.toNat % 16 = c.toNat := by omega
    rw [harith, Char.ofNat_toNat]
  by_cases h7 : c = '<'
  · subst h7; simp +decide [escChar, parseStrBody, parseEsc, parseU, hexNib]
  by_cases h8 : c = '>'
  · subst h8; simp +decide [escChar, parseStrBody, parseEsc, parseU, hexNib]
  by_cases h9 : c = '&'
  · subst h9; simp +decide [escChar, parseStrBody, parseEsc, parseU, hexNib]
  by_cases h10 : c = Char.ofNat 0x2028
  · subst h10; simp +decide [escChar, parseStrBody, parseEsc, parseU, hexNib]
  by_cases h11 : c = Char.ofNat 0x2029
  · subst h11; simp +decide [escChar, parseStrBody, parseEsc, parseU, hexNib]
  -- unescaped character
  have hesc : escChar c = [c] := by
    simp [escChar, h1, h2, h3, h4, h5, h6, h7, h8, h9, h10, h11]
  rw [hesc]
  show parseStrBody acc (c :: rest) = parseStrBody (c :: acc) rest
  simp only [parseStrBody]
  rw [if_neg (by simp [h1]), if_neg (by simp [h2])]

/-- Decoding undoes the escaping of a whole character list, stopping at the
closing quote. -/
theorem parseStrBody_flat (l : List Char) (acc rest : List Char) :
    parseStrBody acc (l.flatMap escChar ++ ('"' :: rest))
      = some (strOf (acc.reverse ++ l), rest) := by
  induction l generalizing acc with
  | nil =>
    simp [parseStrBody]
  | cons c cs ih =>
    rw [List.flatMap_cons, List.append_assoc, parseStrBody_esc, ih]
    simp

/-- The string-literal codec round trip. -/
theorem parseStr_printStr (s : String) (rest : List Char) :
    parseStrBody [] ((charsOf s).flatMap escChar ++ ('"' :: rest))
      = some (s, rest) := by
  rw [parseStrBody_flat]
  rfl

/-- The value decoder on a rendered string literal. -/
theorem parseVal_str (s : String) (f : Nat) (rest : List Char) :
    parseVal (f + 1) (printStr s ++ rest) = some (.vStr s, rest) := by
  have harg : printStr s ++ rest = '"' :: ((charsOf s).flatMap escChar ++ ('"' :: rest)) := by
    simp [printStr]
  rw [harg]
  simp +decide [parseVal, parseStr_printStr]

/-- The value decoder on a rendered integer, for remainders that cannot
extend the number. -/
theorem parseVal_num (i : Int) (f : Nat) (rest : List Char) (hr : numStop rest = true) :
    parseVal (f + 1) (intChars i ++ rest) = some (.vNum i, rest) := by
  have hnum := parseNum_intChars i rest hr
  by_cases hneg : i < 0
  · have harg : intChars i ++ rest = '-' :: (natDigs i.natAbs ++ rest) := by
      simp [intChars, hneg]
    rw [harg]
    simp +decide only [parseVal, if_true, if_false]
    rw [← harg, hnum]
  · obtain ⟨c, t, hct, hc⟩ := natDigs_head i.natAbs
    have hichars : intChars i = natDigs i.natAbs := by
      simp [intChars, hneg]
    have harg : intChars i ++ rest = c :: (t ++ rest) := by
      simp [hichars, hct]
    have hn : (c == 'n') = false := by simp [digit_ne_of hc 'n' (by decide)]
    have ht : (c == 't') = false := by simp [digit_ne_of hc 't' (by decide)]
    have hf2 : (c == 'f') = false := by simp [digit_ne_of hc 'f' (by decide)]
    have hq : (c == '"') = false := by simp [digit_ne_of hc '"' (by decide)]
    have hbk : (c == '[') = false := by simp [digit_ne_of hc '[' (by decide)]
    have hbc : (c == '{') = false := by simp [digit_ne_of hc '{' (by decide)]
    rw [harg]
    simp only [parseVal, hn, ht, hf2, hq, hbk, hbc, hc, Bool.false_eq_true, if_false,
      Bool.or_true, if_true]
    rw [show c :: (t ++ rest) = (c :: t) ++ rest from rfl, ← hct, ← hichars, hnum]

/-- Every rendered value starts with a character that closes neither an
array nor an object. -/
theorem printVal_head (v : GoValue) :
    ∃ c t, printVal v = c :: t ∧ (c == ']') = false ∧ (c == '}') = false := by
  cases v with
  | vNull => exact ⟨'n', _, rfl, by decide, by decide⟩
  | vBool b =>
    cases b with
    | true => exact ⟨'t', _, rfl, by decide, by decide⟩
    | false => exact ⟨'f', _, rfl, by decide, by decide⟩
  | vStr s => exact ⟨'"', (charsOf s).flatMap escChar ++ ['"'], rfl, by decide, by decide⟩
  | vArr xs => exact ⟨'[', printElems xs ++ [']'], rfl, by decide, by decide⟩
  | vObj ms => exact ⟨'{', printMems ms ++ ['}'], rfl, by decide, by decide⟩
  | vUint n =>
    obtain ⟨c, t, hct, hc⟩ := natDigs_head n
    exact ⟨c, t, hct, by simp [digit_ne_of hc ']' (by decide)],
      by simp [digit_ne_of hc '}' (by decide)]⟩
  | vNum i =>
    by_cases hneg : i < 0
    · refine ⟨'-', natDigs i.natAbs, ?_, by decide, by decide⟩
      simp [printVal, intChars, hneg]
    · obtain ⟨c, t, hct, hc⟩ := natDigs_head i.natAbs
      refine ⟨c, t, ?_, by simp [digit_ne_of hc ']' (by decide)],
        by simp [digit_ne_of hc '}' (by decide)]⟩
      simp [printVal, intChars, hneg, hct]

/-- What follows a rendered array element cannot extend a number. -/
theorem numStop_sep_elems (xs : List GoValue) (rest : List Char) :
    numStop (printElemSep xs ++ ']' :: rest) = true := by
  cases xs with
  | nil => rfl
  | cons y ys => rfl

/-- What follows a rendered object member cannot extend a number. -/
theorem numStop_sep_mems (ms : List (String × GoValue)) (rest : List Char) :
    numStop (printMemSep ms ++ '}' :: rest) = true := by
  cases ms with
  | nil => rfl
  | cons kv ms2 =>
    obtain ⟨k, v⟩ := kv
    rfl

mutual

/-- The decoder inverts the encoder on any decoded-form value, given enough
fuel and a remainder that cannot extend a trailing number. -/
theorem rt_val : ∀ (v : GoValue) (fuel : Nat) (rest : List Char),
    decodedForm v = true → (printVal v).length < fuel → numStop rest = true →
    parseVal fuel (printVal v ++ rest) = some (v, rest)
  | .vNull, fuel, rest, _, hf, _ => by
    cases fuel with
    | zero => exact absurd hf (Nat.not_lt_zero _)
    | succ f => simp +decide [printVal, parseVal]
  | .vBool true, fuel, rest, _, hf, _ => by
    cases fuel with
    | zero => exact absurd hf (Nat.not_lt_zero _)
    | succ f => simp +decide [printVal, parseVal]
  | .vBool false, fuel, rest, _, hf, _ => by
    cases fuel with
    | zero => exact absurd hf (Nat.not_lt_zero _)
    | succ f => simp +decide [printVal, parseVal]
  | .vUint n, fuel, rest, hd, hf, _ => by
    simp [decodedForm] at hd
  | .vNum i, fuel, rest, _, hf, hr => by
    cases fuel with
    | zero => exact absurd hf (Nat.not_lt_zero _)
    | succ f => exact parseVal_num i f rest hr
  | .vStr s, fuel, rest, _, hf, _ => by
    cases fuel with
    | zero => exact absurd hf (Nat.not_lt_zero _)
    | succ f => exact parseVal_str s f rest
  | .vArr [], fuel, rest, _, hf, _ => by
    cases fuel with
    | zero => exact absurd hf (Nat.not_lt_zero _)
    | succ f => simp +decide [printVal, printElems, parseVal]
  | .vArr (x :: xs), fuel, rest, hd, hf, _ => by
    cases fuel with
    | zero => exact absurd hf (Nat.not_lt_zero _)
    | succ f =>
      have hdx : decodedFormL (x :: xs) = true := by
        simpa [decodedForm] using hd
      have hlen : (printElems (x :: xs)).length + 1 < f := by
        simp [printVal] at hf
        omega
      obtain ⟨c0, t0, hx, hc1, hc2⟩ := printVal_head x
      have hcons : printElems (x :: xs) ++ ']' :: rest
          = c0 :: (t0 ++ (printElemSep xs ++ ']' :: rest)) := by
        simp [printElems, hx]
      have harg : printVal (.vArr (x :: xs)) ++ rest
          = '[' :: (printElems (x :: xs) ++ ']' :: rest) := by
        simp [printVal]
      rw [harg, hcons]
      simp +decide only [parseVal, if_true, if_false]
      simp only [hc1, Bool.false_eq_true, if_false]
      rw [← hcons, rt_elems x xs f rest hdx hlen]
  | .vObj [], fuel, rest, _, hf, _ => by
    cases fuel with
    | zero => exact absurd hf (Nat.not_lt_zero _)
    | succ f => simp +decide [printVal, printMems, parseVal]
  | .vObj ((k, v) :: ms), fuel, rest, hd, hf, _ => by
    cases fuel with
    | zero => exact absurd hf (Nat.not_lt_zero _)
    | succ f =>
      have hdm : decodedFormM ((k, v) :: ms) = true := by
        simpa [decodedForm] using hd
      have hlen : (printMems ((k, v) :: ms)).length + 1 < f := by
        simp [printVal] at hf
        omega
      have hcons : printMems ((k, v) :: ms) ++ '}' :: rest
          = '"' :: (((charsOf k).flatMap escChar)
              ++ ('"' :: (':' :: (printVal v ++ (printMemSep ms ++ '}' :: rest))))) := by
        simp [printMems, printStr]
      have harg : printVal (.vObj ((k, v) :: ms)) ++ rest
          = '{' :: (printMems ((k, v) :: ms) ++ '}' :: rest) := by
        simp [printVal]
      rw [harg, hcons]
      simp +decide only [parseVal, if_true, if_false]
      rw [← hcons, rt_mems k v ms f rest hdm hlen]
  termination_by v => sizeOf v
  decreasing_by
    all_goals simp_wf
    all_goals omega

/-- The decoder inverts the encoder on a rendered non-empty element list,
up to the closing bracket. -/
theorem rt_elems : ∀ (x : GoValue) (xs : List GoValue) (fuel : Nat) (rest : List Char),
    decodedFormL (x :: xs) = true → (printElems (x :: xs)).length + 1 < fuel →
    parseElems fuel (printElems (x :: xs) ++ ']' :: rest) = some (x :: xs, rest)
  | x, [], fuel, rest, hd, hf => by
    cases fuel with
    | zero => exact absurd hf (Nat.not_lt_zero _)
    | succ f =>
      have hdx : decodedForm x = true := by
        simpa [decodedFormL] using hd
      have hlenx : (printVal x).length < f := by
        simp [printElems, printElemSep] at hf
        omega
      have harg : printElems [x] ++ ']' :: rest
          = printVal x ++ (printElemSep [] ++ ']' :: rest) := by
        simp [printElems]
      rw [harg]
      simp only [parseElems,
        rt_val x f (printElemSep [] ++ ']' :: rest) hdx hlenx (numStop_sep_elems [] rest)]
      simp [printElemSep]
  | x, y :: ys, fuel, rest, hd, hf => by
    cases fuel with
    | zero => exact absurd hf (Nat.not_lt_zero _)
    | succ f =>
      have hdx : decodedForm x = true ∧ decodedFormL (y :: ys) = true := by
        simpa [decodedFormL] using hd
      have hlenx : (printVal x).length < f := by
        simp [printElems] at hf
        omega
      have harg : printElems (x :: y :: ys) ++ ']' :: rest
          = printVal x ++ (printElemSep (y :: ys) ++ ']' :: rest) := by
        simp [printElems]
      rw [harg]
      simp only [parseElems,
        rt_val x f (printElemSep (y :: ys) ++ ']' :: rest) hdx.1 hlenx
          (numStop_sep_elems (y :: ys) rest)]
      have hsep : printElemSep (y :: ys) ++ ']' :: rest
          = ',' :: (printElems (y :: ys) ++ ']' :: rest) := by
        simp [printElemSep, printElems]
      have hleny : (printElems (y :: ys)).length + 1 < f := by
        simp [printElems, printElemSep] at hf ⊢
        omega
      rw [hsep]
      simp only [rt_elems y ys f rest hdx.2 hleny]
  termination_by x xs => 1 + sizeOf x + sizeOf xs
  decreasing_by
    all_goals simp_wf
    all_goals omega

/-- The decoder inverts the encoder on a rendered non-empty member list,
up to the closing brace. -/
theorem rt_mems : ∀ (k : String) (v : GoValue) (ms : List (String × GoValue))
    (fuel : Nat) (rest : List Char),
    decodedFormM ((k, v) :: ms) = true → (printMems ((k, v) :: ms)).length + 1 < fuel →
    parseMems fuel (printMems ((k, v) :: ms) ++ '}' :: rest) = some ((k, v) :: ms, rest)
  | k, v, [], fuel, rest, hd, hf => by
    cases fuel with
    | zero => exact absurd hf (Nat.not_lt_zero _)
    | succ f =>
      have hdv : decodedForm v = true := by
        simpa [decodedFormM] using hd
      have hlenv : (printVal v).length < f := by
        simp [printMems, printMemSep, printStr] at hf
        omega
      have hcons : printMems [(k, v)] ++ '}' :: rest
          = '"' :: (((charsOf k).flatMap escChar)
              ++ ('"' :: (':' :: (printVal v ++ (printMemSep [] ++ '}' :: rest))))) := by
        simp [printMems, printStr]
      rw [hcons]
      simp only [parseMems, parseStr_printStr]
      simp only [rt_val v f (printMemSep [] ++ '}' :: rest) hdv hlenv
        (numStop_sep_mems [] rest)]
      simp [printMemSep]
  | k, v, (k2, v2) :: ms2, fuel, rest, hd, hf => by
    cases fuel with
    | zero => exact absurd hf (Nat.not_lt_zero _)
    | succ f =>
      have hdv : decodedForm v = true ∧ decodedFormM ((k2, v2) :: ms2) = true := by
        simpa [decodedFormM] using hd
      have hlenv : (printVal v).length < f := by
        simp [printMems, printStr] at hf
        omega
      have hcons : printMems ((k, v) :: (k2, v2) :: ms2) ++ '}' :: rest
          = '"' :: (((charsOf k).flatMap escChar)
              ++ ('"' :: (':' :: (printVal v
                  ++ (printMemSep ((k2, v2) :: ms2) ++ '}' :: rest))))) := by
        simp [printMems, printStr]
      rw [hcons]
      simp only [parseMems, parseStr_printStr]
      simp only [rt_val v f (printMemSep ((k2, v2) :: ms2) ++ '}' :: rest) hdv.1 hlenv
        (numStop_sep_mems ((k2, v2) :: ms2) rest)]
      have hsep : printMemSep ((k2, v2) :: ms2) ++ '}' :: rest
          = ',' :: (printMems ((k2, v2) :: ms2) ++ '}' :: rest) := by
        simp [printMemSep, printMems]
      have hlenm2 : (printMems ((k2, v2) :: ms2)).length + 1 < f := by
        simp [printMems, printMemSep, printStr] at hf ⊢
        omega
      rw [hsep]
      simp only [rt_mems k2 v2 ms2 f rest hdv.2 hlenm2]
  termination_by _ v ms => 1 + sizeOf v + sizeOf ms
  decreasing_by
    all_goals simp_wf
    all_goals omega

end

/-! ## The message-level round trip and its failure on generator ids (C5) -/

theorem decodedFormM_append (l1 l2 : List (String × GoValue)) :
    decodedFormM (l1 ++ l2) = (decodedFormM l1 && decodedFormM l2) := by
  induction l1 with
  | nil => simp [decodedFormM]
  | cons kv l1' ih =>
    obtain ⟨k, v⟩ := kv
    simp [decodedFormM, ih, Bool.and_assoc]

/-- The members of a marshalled message are in decoded form when its
dynamic fields are. -/
theorem decodedFormM_msgFields (m : Message)
    (hid : decodedOpt m.id = true) (hp : decodedOpt m.params = true)
    (hres : decodedOpt m.result = true)
    (herr : ∀ e, m.error = some e → decodedOpt e.data = true) :
    decodedFormM (msgFields m) = true := by
  obtain ⟨j, i, me, p, r, er⟩ := m
  rcases i with _ | iv <;> rcases p with _ | pv <;> rcases r with _ | rv <;>
    rcases er with _ | ev
  all_goals (try obtain ⟨ecode, emsg, edata⟩ := ev)
  all_goals (try rcases edata with _ | edv)
  all_goals by_cases hme : me = ""
  all_goals (try subst hme)
  all_goals (try have hme2 : (me == "") = false := by simp [hme])
  all_goals
    simp_all +decide [msgFields, decodedFormM, decodedFormM_append, decodedForm,
      errFields, decodedOpt, Bool.and_eq_true]

/-- Decoding an interface-typed member restores a non-null decoded
value (the id field). -/
theorem applyMsgField_id (m : Message) (v : GoValue) (hv : notNull v = true) :
    applyMsgField m ("id", v) = some { m with id := some v } := by
  cases v <;> simp +decide [applyMsgField, notNull] at hv ⊢

/-- The params analogue of `applyMsgField_id`. -/
theorem applyMsgField_params (m : Message) (v : GoValue) (hv : notNull v = true) :
    applyMsgField m ("params", v) = some { m with params := some v } := by
  cases v <;> simp +decide [applyMsgField, notNull] at hv ⊢

/-- The result analogue of `applyMsgField_id`. -/
theorem applyMsgField_result (m : Message) (v : GoValue) (hv : notNull v = true) :
    applyMsgField m ("result", v) = some { m with result := some v } := by
  cases v <;> simp +decide [applyMsgField, notNull] at hv ⊢

/-- The data analogue of `applyMsgField_id`, inside an error object. -/
theorem applyErrField_data (e : RPCError) (v : GoValue) (hv : notNull v = true) :
    applyErrField e ("data", v) = some { e with data := some v } := by
  cases v <;> simp +decide [applyErrField, notNull] at hv ⊢

/-- Decoding the members of a marshalled `RPCError` rebuilds it. -/
theorem decodeErr_errFields (e : RPCError) (hd : decodedOpt e.data = true) :
    (errFields e).foldlM applyErrField ⟨0, "", none⟩ = some e := by
  obtain ⟨code, msg, data⟩ := e
  cases data with
  | none => simp +decide [errFields, applyErrField, List.foldlM]
  | some dv =>
    have hnn : notNull dv = true := by
      simp [decodedOpt, Bool.and_eq_true] at hd
      exact hd.2
    simp +decide [errFields, applyErrField, List.foldlM,
      applyErrField_data ⟨code, msg, none⟩ dv hnn]
    cases dv <;> simp [notNull] at hnn ⊢

/-- Folding the marshalled members into the zero message rebuilds the
message. -/
theorem foldlM_msgFields (m : Message)
    (hid : decodedOpt m.id = true) (hp : decodedOpt m.params = true)
    (hres : decodedOpt m.result = true)
    (herr : ∀ e, m.error = some e → decodedOpt e.data = true) :
    (msgFields m).foldlM applyMsgField emptyMessage = some m := by
  obtain ⟨j, i, me, p, r, er⟩ := m
  have hidn : ∀ v, i = some v → notNull v = true := by
    intro v hv
    rw [hv] at hid
    simp [decodedOpt, Bool.and_eq_true] at hid
    exact hid.2
  have hpn : ∀ v, p = some v → notNull v = true := by
    intro v hv
    rw [hv] at hp
    simp [decodedOpt, Bool.and_eq_true] at hp
    exact hp.2
  have hrn : ∀ v, r = some v → notNull v = true := by
    intro v hv
    rw [hv] at hres
    simp [decodedOpt, Bool.and_eq_true] at hres
    exact hres.2
  rcases i with _ | iv <;> rcases p with _ | pv <;> rcases r with _ | rv <;>
    rcases er with _ | ev
  all_goals (try have hiv := hidn _ rfl)
  all_goals (try have hpv := hpn _ rfl)
  all_goals (try have hrv := hrn _ rfl)
  all_goals (try have hev := herr _ rfl)
  all_goals (try have hde := decodeErr_errFields _ hev)
  all_goals by_cases hme : me = ""
  all_goals (try subst hme)
  all_goals (try have hme2 : (me == "") = false := by simp [hme])
  all_goals
    simp_all +decide [msgFields, emptyMessage, List.foldlM, applyMsgField,
      applyMsgField_id, applyMsgField_params, applyMsgField_result]

/-- The struct-level round trip: a message whose dynamic
(`interface{}`-typed) fields hold JSON-decoded values survives
`MarshalMessage` followed by `UnmarshalMessage`. -/
theorem unmarshal_marshal_of_decoded (m : Message)
    (hid : decodedOpt m.id = true) (hp : decodedOpt m.params = true)
    (hres : decodedOpt m.result = true)
    (herr : ∀ e, m.error = some e → decodedOpt e.data = true) :
    unmarshalMessage (marshalMessage m) = some m := by
  have hd : decodedForm (GoValue.vObj (msgFields m)) = true := by
    simp [decodedForm, decodedFormM_msgFields m hid hp hres herr]
  have hparse : parseVal ((printVal (GoValue.vObj (msgFields m))).length + 1)
      (printVal (GoValue.vObj (msgFields m)) ++ [])
      = some (GoValue.vObj (msgFields m), []) :=
    rt_val _ _ _ hd (by omega) (by simp [numStop])
  rw [List.append_nil] at hparse
  simp only [unmarshalMessage, marshalMessage, hparse]
  exact foldlM_msgFields m hid hp hres herr

/-- C5 counterexample: the request frame built from a generator id
(`uint64` value 1) passes `ValidateMessage`, yet decoding its encoding
yields a `float64` id (the decoded value `vNum 1`), not the original
`vUint 1`, so encode-then-decode is not the identity on valid frames. -/
theorem unmarshal_marshal_uintId :
    validateMessage uintIdRequest = none ∧
    unmarshalMessage (marshalMessage uintIdRequest) ≠ some uintIdRequest := by
  constructor
  · decide
  · have hm : marshalMessage uintIdRequest
        = marshalMessage ⟨"2.0", some (.vNum 1), "ping", none, none, none⟩ := by
      simp +decide [marshalMessage, msgFields, uintIdRequest, printVal, printMems,
        printMemSep, printStr, intChars]
    have h2 : unmarshalMessage
          (marshalMessage (⟨"2.0", some (.vNum 1), "ping", none, none, none⟩ : Message))
        = some ⟨"2.0", some (.vNum 1), "ping", none, none, none⟩ :=
      unmarshal_marshal_of_decoded _ (by decide) (by decide) (by decide)
        (by intro e h; exact Option.noConfusion h)
    rw [hm, h2]
    intro h
    simp [uintIdRequest] at h

/-- C5: encode-then-decode is NOT the identity on every frame passing
`ValidateMessage` (see the counterexample above: decoded numbers come back
as `float64`). The corrected statement proved here: for every frame that
passes `ValidateMessage` and whose dynamic (`interface{}`-typed) fields
already hold JSON-decoded values, `UnmarshalMessage (MarshalMessage m)`
returns `m` unchanged, including id, method, params, result and error. -/
theorem unmarshal_marshal_decoded (m : Message)
    (_hval : validateMessage m = none)
    (hid : decodedOpt m.id = true) (hp : decodedOpt m.params = true)
    (hres : decodedOpt m.result = true)
    (herr : ∀ e, m.error = some e → decodedOpt e.data = true) :
    unmarshalMessage (marshalMessage m) = some m :=
  unmarshal_marshal_of_decoded m hid hp hres herr

/-- Witness: a concrete decoded-form request frame round-trips. -/
theorem unmarshal_marshal_decoded_witness :
    validateMessage decodedRequest = none ∧
    unmarshalMessage (marshalMessage decodedRequest) = some decodedRequest :=
  ⟨by decide,
   unmarshal_marshal_decoded decodedRequest (by decide) (by decide) (by decide)
     (by decide) (by intro e h; exact Option.noConfusion h)⟩

end IGOS
